import Mathlib

/-!
Verification development for the plexify media-transcoding queue.

The Rust sources are shallowly embedded: filesystem paths are strings,
directories are partial maps from file names to file contents, and each
atomic filesystem primitive (create-directory-if-absent, rename, write,
delete) is one transition on that state.  Concurrency is modelled as an
arbitrary serialization of these atomic steps, which is exactly the
assumption the queue protocol itself relies on (the filesystem serializes
renames of the same path).  `serde_json` serialization of job records is
modelled by an executable JSON value type with a pretty printer matching
`serde_json::to_string_pretty` and a fuel-indexed parser.
-/

namespace Plexify

/-- Quality settings for video encoding (src/job/mod.rs, struct QualitySettings). -/
structure QualitySettings where
  ffmpeg_preset : String
  ffmpeg_crf : String
  ffmpeg_audio_bitrate : String
  deriving DecidableEq, Repr

/-- Post-processing settings (src/job/mod.rs, struct PostProcessingSettings). -/
structure PostProcessingSettings where
  disable_source_files : Bool
  deriving DecidableEq, Repr

/-- Supported media file types (src/job/mod.rs, enum MediaFileType). -/
inductive MediaFileType where
  | WebM : MediaFileType
  | Mkv : MediaFileType
  deriving DecidableEq, Repr

/-- A transcode job (src/job/mod.rs, struct Job).  Rust `PathBuf` fields are
modelled as strings (the serialized record format requires UTF-8 paths). -/
structure Job where
  id : String
  input_path : String
  output_path : String
  subtitle_path : Option String
  file_type : MediaFileType
  quality_settings : QualitySettings
  post_processing : PostProcessingSettings
  deriving DecidableEq, Repr

/-- Modelled from the spec: the Job `progress` record of section 3
(`started`, `partial_output_path`, `partial_duration_seconds`).  The field is
referenced as `job.progress` throughout src/ffmpeg/mod.rs but its declaration
is not among the sources under src/; durations (Rust `f64`) are modelled as
rationals. -/
structure JobProgress where
  started : Bool
  partial_output_path : Option String
  partial_duration_seconds : Option Rat
  deriving DecidableEq

/-- Modelled from the spec: a freshly created or freshly deserialized job
carries no progress (resume state is not persisted in the record). -/
def JobProgress.initial : JobProgress :=
  { started := false, partial_output_path := none, partial_duration_seconds := none }

/-- Content type of a media file (src/job/mod.rs, enum ContentType). -/
inductive ContentType where
  | Movie : ContentType
  | Series : ContentType
  deriving DecidableEq, Repr

/-- Episode metadata extracted from paths (src/job/mod.rs, struct EpisodeMetadata). -/
structure EpisodeMetadata where
  series_name : String
  season_number : Nat
  episode_number : Nat
  content_type : ContentType
  deriving DecidableEq, Repr

/-- Queue record file name for a job: `{id}.job` (Job::job_filename). -/
def Job.job_filename (j : Job) : String :=
  j.id ++ ".job"

/-- Last path component (`Path::file_name`), with the fallback
`"output.mp4"` used by Job::work_folder_output_path when `file_name()`
yields nothing; computed structurally over the character list so that it
evaluates inside the kernel. -/
def pathFileName (p : String) : String :=
  match (p.data.reverse.takeWhile (fun c => c != '/')).reverse with
  | [] => "output.mp4"
  | cs => String.mk cs

/-- Scratch output path inside the work folder, `{work_folder}/{id}_{output
file name}` (Job::work_folder_output_path). -/
def Job.work_folder_output_path (j : Job) (work_folder : String) : String :=
  work_folder ++ "/" ++ j.id ++ "_" ++ pathFileName j.output_path

/-- Absolute-path test used by the Job path helpers (Path::is_absolute). -/
def isAbsolutePath (p : String) : Bool :=
  match p.data with
  | c :: _ => c == '/'
  | [] => false

/-- Full output path (Job::full_output_path): absolute paths are returned
as-is, relative ones are joined onto the media root when one is given. -/
def Job.full_output_path (j : Job) (media_root : Option String) : String :=
  if isAbsolutePath j.output_path then j.output_path
  else
    match media_root with
    | some root => root ++ "/" ++ j.output_path
    | none => j.output_path

/-- Full input path (Job::full_input_path), same joining rule as for output. -/
def Job.full_input_path (j : Job) (media_root : Option String) : String :=
  if isAbsolutePath j.input_path then j.input_path
  else
    match media_root with
    | some root => root ++ "/" ++ j.input_path
    | none => j.input_path

mutual
/-- JSON values as produced and consumed by the job record serializer; the
record format only ever uses strings, booleans, null and objects. -/
inductive JVal where
  | str : String → JVal
  | jbool : Bool → JVal
  | jnull : JVal
  | obj : JEntries → JVal
/-- Key-value entry list of a JSON object. -/
inductive JEntries where
  | nil : JEntries
  | cons : String → JVal → JEntries → JEntries
end

/-- Opening brace character. -/
def lbrace : Char := Char.ofNat 123

/-- Closing brace character. -/
def rbrace : Char := Char.ofNat 125

/-- Double-quote character. -/
def dquote : Char := Char.ofNat 34

/-- Backslash character. -/
def bslash : Char := Char.ofNat 92

/-- Lower-case hexadecimal digit, as emitted by serde_json's escape table. -/
def hexDigit (n : Nat) : Char :=
  if n < 10 then Char.ofNat (48 + n) else Char.ofNat (87 + n)

/-- JSON escaping of one character, following serde_json's default escaping:
quote, backslash and the named control escapes get two-character forms, the
remaining control characters become `\u00xx`, everything else is verbatim. -/
def escapeChar (c : Char) : List Char :=
  if c = dquote then [bslash, dquote]
  else if c = bslash then [bslash, bslash]
  else if c = Char.ofNat 8 then [bslash, 'b']
  else if c = Char.ofNat 9 then [bslash, 't']
  else if c = Char.ofNat 10 then [bslash, 'n']
  else if c = Char.ofNat 12 then [bslash, 'f']
  else if c = Char.ofNat 13 then [bslash, 'r']
  else if c.toNat < 32 then
    [bslash, 'u', '0', '0', hexDigit (c.toNat / 16), hexDigit (c.toNat % 16)]
  else [c]

/-- JSON escaping of a character sequence. -/
def escapeStr : List Char → List Char
  | [] => []
  | c :: cs => escapeChar c ++ escapeStr cs

/-- Rendering of a JSON string literal. -/
def renderString (s : List Char) : List Char :=
  dquote :: escapeStr s ++ [dquote]

/-- Indentation used by serde_json's pretty printer: two spaces per level. -/
def indentChars (d : Nat) : List Char :=
  List.replicate (2 * d) ' '

mutual
/-- Pretty printer matching `serde_json::to_string_pretty`: objects open with
a brace and newline, every entry on its own line indented two spaces deeper,
`": "` after each key, entries separated by `",\n"`. -/
def renderVal (d : Nat) : JVal → List Char
  | .str s => renderString s.data
  | .jbool b => if b then [ 't', 'r', 'u', 'e' ] else [ 'f', 'a', 'l', 's', 'e' ]
  | .jnull => [ 'n', 'u', 'l', 'l' ]
  | .obj .nil => [lbrace, rbrace]
  | .obj (.cons k v es) =>
      lbrace :: '\n' :: (renderEntries d (.cons k v es) ++ '\n' :: (indentChars d ++ [rbrace]))
/-- Pretty printer for a nonempty run of object entries. -/
def renderEntries (d : Nat) : JEntries → List Char
  | .nil => []
  | .cons k v .nil =>
      indentChars (d + 1) ++ renderString k.data ++ ':' :: ' ' :: renderVal (d + 1) v
  | .cons k v (.cons k2 v2 es) =>
      indentChars (d + 1) ++ renderString k.data ++ ':' :: ' ' :: renderVal (d + 1) v
        ++ ',' :: '\n' :: renderEntries d (.cons k2 v2 es)
end

/-- JSON insignificant whitespace. -/
def isWs (c : Char) : Bool :=
  c = ' ' || c = '\n' || c = '\t' || c = '\r'

/-- Drop leading whitespace. -/
def skipWs : List Char → List Char
  | [] => []
  | c :: cs => if isWs c then skipWs cs else c :: cs

/-- Value of one hexadecimal digit. -/
def hexVal (c : Char) : Option Nat :=
  if 48 ≤ c.toNat ∧ c.toNat ≤ 57 then some (c.toNat - 48)
  else if 97 ≤ c.toNat ∧ c.toNat ≤ 102 then some (c.toNat - 87)
  else if 65 ≤ c.toNat ∧ c.toNat ≤ 70 then some (c.toNat - 55)
  else none

/-- Parse the body of a JSON string literal (after the opening quote), up to
and including the closing quote; returns the decoded characters and the rest
of the input. -/
def parseStringBody : List Char → Option (List Char × List Char)
  | [] => none
  | c :: cs =>
    if c = dquote then some ([], cs)
    else if c = bslash then
      match cs with
      | [] => none
      | e :: cs2 =>
        if e = dquote then (parseStringBody cs2).map (fun r => (dquote :: r.1, r.2))
        else if e = bslash then (parseStringBody cs2).map (fun r => (bslash :: r.1, r.2))
        else if e = '/' then (parseStringBody cs2).map (fun r => ('/' :: r.1, r.2))
        else if e = 'b' then (parseStringBody cs2).map (fun r => (Char.ofNat 8 :: r.1, r.2))
        else if e = 't' then (parseStringBody cs2).map (fun r => (Char.ofNat 9 :: r.1, r.2))
        else if e = 'n' then (parseStringBody cs2).map (fun r => (Char.ofNat 10 :: r.1, r.2))
        else if e = 'f' then (parseStringBody cs2).map (fun r => (Char.ofNat 12 :: r.1, r.2))
        else if e = 'r' then (parseStringBody cs2).map (fun r => (Char.ofNat 13 :: r.1, r.2))
        else if e = 'u' then
          match cs2 with
          | a :: b :: c3 :: d3 :: r =>
            match hexVal a, hexVal b, hexVal c3, hexVal d3 with
            | some ha, some hb, some hc, some hd =>
                (parseStringBody r).map
                  (fun p => (Char.ofNat (4096 * ha + 256 * hb + 16 * hc + hd) :: p.1, p.2))
            | _, _, _, _ => none
          | _ => none
        else none
    else (parseStringBody cs).map (fun r => (c :: r.1, r.2))

mutual
/-- Fuel-indexed parser for the JSON fragment the job records use (strings,
booleans, null, objects); mirrors `serde_json::from_str` on that fragment in
accepting arbitrary insignificant whitespace and any field order. -/
def parseVal : Nat → List Char → Option (JVal × List Char)
  | 0, _ => none
  | fuel + 1, cs =>
    match skipWs cs with
    | [] => none
    | c :: rest =>
      if c = dquote then
        (parseStringBody rest).map (fun r => (JVal.str (String.mk r.1), r.2))
      else if c = 't' then
        match rest with
        | a :: b :: c2 :: r =>
            if a = 'r' ∧ b = 'u' ∧ c2 = 'e' then some (JVal.jbool true, r) else none
        | _ => none
      else if c = 'f' then
        match rest with
        | a :: b :: c2 :: d2 :: r =>
            if a = 'a' ∧ b = 'l' ∧ c2 = 's' ∧ d2 = 'e' then some (JVal.jbool false, r)
            else none
        | _ => none
      else if c = 'n' then
        match rest with
        | a :: b :: c2 :: r =>
            if a = 'u' ∧ b = 'l' ∧ c2 = 'l' then some (JVal.jnull, r) else none
        | _ => none
      else if c = lbrace then
        match skipWs rest with
        | [] => none
        | d :: r2 =>
          if d = rbrace then some (JVal.obj .nil, r2)
          else (parseEntries fuel (d :: r2)).map (fun r => (JVal.obj r.1, r.2))
      else none
/-- Parser for the entries of a nonempty object, up to and including the
closing brace. -/
def parseEntries : Nat → List Char → Option (JEntries × List Char)
  | 0, _ => none
  | fuel + 1, cs =>
    match skipWs cs with
    | [] => none
    | c :: rest =>
      if c = dquote then
        match parseStringBody rest with
        | none => none
        | some (key, r1) =>
          match skipWs r1 with
          | [] => none
          | c2 :: r2 =>
            if c2 = ':' then
              match parseVal fuel r2 with
              | none => none
              | some (v, r3) =>
                match skipWs r3 with
                | [] => none
                | d2 :: r4 =>
                  if d2 = ',' then
                    (parseEntries fuel r4).map
                      (fun es => (JEntries.cons (String.mk key) v es.1, es.2))
                  else if d2 = rbrace then
                    some (JEntries.cons (String.mk key) v .nil, r4)
                  else none
            else none
      else none
end

mutual
/-- Fuel that certainly suffices to parse a rendered value. -/
def jfuel : JVal → Nat
  | .str _ => 1
  | .jbool _ => 1
  | .jnull => 1
  | .obj es => 1 + jfuelEntries es
/-- Fuel that certainly suffices to parse a rendered entry run. -/
def jfuelEntries : JEntries → Nat
  | .nil => 0
  | .cons _ v es => 1 + jfuel v + jfuelEntries es
end

/-- Serialization of a MediaFileType: serde's externally tagged unit variant
is a plain string. -/
def mediaFileTypeToJson : MediaFileType → JVal
  | .WebM => .str "WebM"
  | .Mkv => .str "Mkv"

/-- Serialization of an optional path: `None` is `null`. -/
def optPathToJson : Option String → JVal
  | some p => .str p
  | none => .jnull

/-- Serialization of the nested quality settings. -/
def qualityToJson (q : QualitySettings) : JVal :=
  .obj (.cons "ffmpeg_preset" (.str q.ffmpeg_preset)
    (.cons "ffmpeg_crf" (.str q.ffmpeg_crf)
      (.cons "ffmpeg_audio_bitrate" (.str q.ffmpeg_audio_bitrate) .nil)))

/-- Serialization of the nested post-processing settings. -/
def postToJson (p : PostProcessingSettings) : JVal :=
  .obj (.cons "disable_source_files" (.jbool p.disable_source_files) .nil)

/-- Serde-derived serialization of a Job: one object with the seven fields in
declaration order. -/
def jobToJson (j : Job) : JVal :=
  .obj (.cons "id" (.str j.id)
    (.cons "input_path" (.str j.input_path)
      (.cons "output_path" (.str j.output_path)
        (.cons "subtitle_path" (optPathToJson j.subtitle_path)
          (.cons "file_type" (mediaFileTypeToJson j.file_type)
            (.cons "quality_settings" (qualityToJson j.quality_settings)
              (.cons "post_processing" (postToJson j.post_processing) .nil)))))))

/-- Field lookup in a parsed object; serde's derive reads fields by name and
ignores order. -/
def lookupEntry : JEntries → String → Option JVal
  | .nil, _ => none
  | .cons k v es, key => if k = key then some v else lookupEntry es key

/-- Read a JSON string. -/
def jvalAsStr : JVal → Option String
  | .str s => some s
  | _ => none

/-- Read an optional JSON string (`null` is `None`). -/
def jvalAsOptStr : JVal → Option (Option String)
  | .jnull => some none
  | .str s => some (some s)
  | _ => none

/-- Read a JSON boolean. -/
def jvalAsBool : JVal → Option Bool
  | .jbool b => some b
  | _ => none

/-- Deserialization of a MediaFileType from its variant name. -/
def mediaFileTypeFromJson (v : JVal) : Option MediaFileType :=
  match v with
  | .str s => if s = "WebM" then some .WebM else if s = "Mkv" then some .Mkv else none
  | _ => none

/-- Deserialization of the nested quality settings. -/
def qualityFromJson (v : JVal) : Option QualitySettings :=
  match v with
  | .obj es => do
    let p ← (lookupEntry es "ffmpeg_preset").bind jvalAsStr
    let c ← (lookupEntry es "ffmpeg_crf").bind jvalAsStr
    let a ← (lookupEntry es "ffmpeg_audio_bitrate").bind jvalAsStr
    some { ffmpeg_preset := p, ffmpeg_crf := c, ffmpeg_audio_bitrate := a }
  | _ => none

/-- Deserialization of the nested post-processing settings. -/
def postFromJson (v : JVal) : Option PostProcessingSettings :=
  match v with
  | .obj es => do
    let b ← (lookupEntry es "disable_source_files").bind jvalAsBool
    some { disable_source_files := b }
  | _ => none

/-- Serde-derived deserialization of a Job from a parsed JSON value. -/
def jobFromJson (v : JVal) : Option Job :=
  match v with
  | .obj es => do
    let i ← (lookupEntry es "id").bind jvalAsStr
    let ip ← (lookupEntry es "input_path").bind jvalAsStr
    let op ← (lookupEntry es "output_path").bind jvalAsStr
    let sp ← (lookupEntry es "subtitle_path").bind jvalAsOptStr
    let ft ← (lookupEntry es "file_type").bind mediaFileTypeFromJson
    let q ← (lookupEntry es "quality_settings").bind qualityFromJson
    let pp ← (lookupEntry es "post_processing").bind postFromJson
    some { id := i, input_path := ip, output_path := op, subtitle_path := sp,
           file_type := ft, quality_settings := q, post_processing := pp }
  | _ => none

/-- The serialized job record, `serde_json::to_string_pretty(job)`
(queue/mod.rs line 42). -/
def serialize_job (j : Job) : String :=
  String.mk (renderVal 0 (jobToJson j))

/-- The record deserializer, `serde_json::from_str::<Job>` (queue/mod.rs
line 178): parse one JSON value, allow trailing whitespace only, then read
the Job fields. -/
def deserialize_job (s : String) : Option Job :=
  match parseVal (s.length + 1) s.data with
  | some (v, rest) => if skipWs rest = [] then jobFromJson v else none
  | none => none

/-- State of the shared queue root: the three record directories `_queue`
(pending), `_in_progress` and `_completed` as partial maps from record file
name to file contents, plus the transient `{id}.job.lock` lock directories
that live inside `_queue` (queue/mod.rs, struct JobQueue).  Every queue
operation below is built from the atomic filesystem primitives the code
uses: create-directory-if-absent, write, rename, remove. -/
@[ext]
structure QueueState where
  pending : String → Option String
  in_progress : String → Option String
  completed : String → Option String
  locks : String → Bool

/-- The empty queue root, right after JobQueue::init on a fresh directory. -/
def emptyQueue : QueueState :=
  { pending := fun _ => none, in_progress := fun _ => none,
    completed := fun _ => none, locks := fun _ => false }

/-- JobQueue::enqueue_job (queue/mod.rs lines 41-67): atomically create the
lock directory; if it already exists another writer owns the record, return
Ok without writing.  Otherwise write the serialized record into pending,
remove the lock, return Ok.  The write itself is modelled as always
succeeding (the error arm only cleans up the lock and surfaces the I/O
error). -/
def enqueue_job (j : Job) (s : QueueState) : QueueState × Bool :=
  let job_filename := j.job_filename
  let lock_name := job_filename ++ ".lock"
  if s.locks lock_name then (s, true)
  else
    let s1 := { s with locks := fun n => if n = lock_name then true else s.locks n }
    let s2 := { s1 with pending := fun n =>
      if n = job_filename then some (serialize_job j) else s1.pending n }
    let s3 := { s2 with locks := fun n => if n = lock_name then false else s2.locks n }
    (s3, true)

/-- A claimed job handle (queue/mod.rs, struct ClaimedJob); the
`in_progress_path` is determined by the job name. -/
structure ClaimedJob where
  job_name : String
  job : Job
  deriving DecidableEq, Repr

/-- Outcome of try_claim_job_file: `Ok(Some(claimed))`, `Ok(None)` when the
rename lost the race, or `Err` when the renamed record fails to
deserialize. -/
inductive ClaimOutcome where
  | claimed : ClaimedJob → ClaimOutcome
  | notAvailable : ClaimOutcome
  | deserializeError : ClaimOutcome
  deriving DecidableEq, Repr

/-- JobQueue::try_claim_job_file (queue/mod.rs lines 160-192): atomically
rename `pending/{name}` to `in_progress/{name}`.  Rename fails without
effect exactly when the source record no longer exists (someone else claimed
it); on success the just-renamed record is read back and deserialized, and a
deserialization failure propagates as an error after the rename already
happened. -/
def try_claim_job_file (s : QueueState) (name : String) : ClaimOutcome × QueueState :=
  match s.pending name with
  | none => (.notAvailable, s)
  | some content =>
    let s2 : QueueState :=
      { pending := fun n => if n = name then none else s.pending n,
        in_progress := fun n => if n = name then some content else s.in_progress n,
        completed := s.completed, locks := s.locks }
    match deserialize_job content with
    | some job => (.claimed { job_name := name, job := job }, s2)
    | none => (.deserializeError, s2)

/-- Result of a whole claim call: a claimed handle, `Ok(None)` when pending
is exhausted, or a propagated error. -/
inductive ClaimResult where
  | claimedJob : ClaimedJob → ClaimResult
  | empty : ClaimResult
  | claimError : ClaimResult
  deriving DecidableEq, Repr

/-- Directory-listing filter `path.extension() == "job"`: the name ends in
`.job` with a nonempty stem. -/
def hasJobExtension (name : String) : Bool :=
  List.isSuffixOf (String.data ".job") name.data && !(name == ".job")

/-- JobQueue::claim_first_available_job (queue/mod.rs lines 81-96): walk the
pending listing in directory order, attempt the atomic claim on every
`.job` entry, return on first success; a deserialization error propagates
out of the whole call via `?`. -/
def claim_first_available_job (s : QueueState) : List String → ClaimResult × QueueState
  | [] => (.empty, s)
  | name :: rest =>
    if hasJobExtension name then
      match try_claim_job_file s name with
      | (.claimed c, s2) => (.claimedJob c, s2)
      | (.notAvailable, s2) => claim_first_available_job s2 rest
      | (.deserializeError, s2) => (.claimError, s2)
    else claim_first_available_job s rest

/-- Rename a record from `in_progress` to `dst`; the rename fails without
effect when the source is gone (modelled as the identity). -/
def settleRecord (name : String) (s : QueueState)
    (intoCompleted : Bool) : QueueState :=
  match s.in_progress name with
  | none => s
  | some content =>
    if intoCompleted then
      { s with in_progress := fun n => if n = name then none else s.in_progress n,
               completed := fun n => if n = name then some content else s.completed n }
    else
      { s with in_progress := fun n => if n = name then none else s.in_progress n,
               pending := fun n => if n = name then some content else s.pending n }

/-- ClaimedJob::complete (queue/mod.rs lines 243-248): atomically rename the
record from `in_progress` to `completed`, consuming the handle. -/
def ClaimedJob.complete (c : ClaimedJob) (s : QueueState) : QueueState :=
  settleRecord c.job_name s true

/-- ClaimedJob::return_to_queue (queue/mod.rs lines 251-256): atomically
rename the record from `in_progress` back to pending. -/
def ClaimedJob.return_to_queue (c : ClaimedJob) (s : QueueState) : QueueState :=
  settleRecord c.job_name s false

/-- Outcome list of `n` workers attempting the rename-based claim of the
same record; the filesystem serializes the renames, so any concurrent
execution is one of these serial orders. -/
def claim_attempts (s : QueueState) (name : String) : Nat → List ClaimOutcome × QueueState
  | 0 => ([], s)
  | n + 1 =>
    let r := try_claim_job_file s name
    let rest := claim_attempts r.2 name n
    (r.1 :: rest.1, rest.2)

/-- Whether a claim outcome carries a handle. -/
def isClaimedOutcome : ClaimOutcome → Bool
  | .claimed _ => true
  | _ => false

/-- One queue operation, for quantifying over operation sequences.  The
`complete`/`returnToQueue` operations are invoked through a ClaimedJob
handle carrying this record name. -/
inductive QOp where
  | enqueue : Job → QOp
  | tryClaim : String → QOp
  | complete : String → QOp
  | returnToQueue : String → QOp
  deriving DecidableEq

/-- Apply one queue operation to the state. -/
def applyOp (op : QOp) (s : QueueState) : QueueState :=
  match op with
  | .enqueue j => (enqueue_job j s).1
  | .tryClaim name => (try_claim_job_file s name).2
  | .complete name => settleRecord name s true
  | .returnToQueue name => settleRecord name s false

/-- Apply a sequence of queue operations. -/
def applyOps : List QOp → QueueState → QueueState
  | [], s => s
  | op :: ops, s => applyOps ops (applyOp op s)

/-- Every state along a sequence of queue operations (all "instants",
initial state included); each operation is one atomic rename/write, so these
are the only states any observer can see. -/
def statesAlong : List QOp → QueueState → List QueueState
  | [], s => [s]
  | op :: ops, s => s :: statesAlong ops (applyOp op s)

/-- In how many of the three record directories does `name` exist. -/
def dirCount (s : QueueState) (name : String) : Nat :=
  (if (s.pending name).isSome then 1 else 0) +
  (if (s.in_progress name).isSome then 1 else 0) +
  (if (s.completed name).isSome then 1 else 0)

/-- The record exists in exactly one of pending/in_progress/completed. -/
def exactlyOneDir (s : QueueState) (name : String) : Prop :=
  dirCount s name = 1

instance (s : QueueState) (name : String) : Decidable (exactlyOneDir s name) := by
  unfold exactlyOneDir
  infer_instance

/-- Guard on an operation: an enqueue of this record only happens while the
record is not sitting in `in_progress` or `completed` (which is how the
system uses enqueue: a fresh record, or a duplicate-scan race while the
record is still pending). -/
def enqueueSafeB (name : String) (s : QueueState) : QOp → Bool
  | .enqueue j => !(j.job_filename == name) ||
      ((s.in_progress name).isNone && (s.completed name).isNone)
  | _ => true

/-- The guard holds at every step of the sequence. -/
def SafeSeqB (name : String) : QueueState → List QOp → Bool
  | _, [] => true
  | s, op :: ops => enqueueSafeB name s op && SafeSeqB name (applyOp op s) ops

/-- Comparator `a.cmp(&b)` of a Rust `Ord` type, for any linear order. -/
def cmpLin {α : Type} [LinearOrder α] (a b : α) : Ordering :=
  if a < b then .lt else if a = b then .eq else .gt

/-- The episode comparator of claim_prioritized_job (queue/mod.rs lines
135-142): series name, then season, then episode. -/
def cmpMeta (a b : EpisodeMetadata) : Ordering :=
  ((cmpLin a.series_name b.series_name).then
    (cmpLin a.season_number b.season_number)).then
    (cmpLin a.episode_number b.episode_number)

/-- The full comparator of claim_prioritized_job (queue/mod.rs lines
133-147): jobs with metadata sort before jobs without; two jobs without
metadata compare equal (the stable sort keeps their listing order). -/
def cmpOptMeta : Option EpisodeMetadata → Option EpisodeMetadata → Ordering
  | some a, some b => cmpMeta a b
  | some _, none => .lt
  | none, some _ => .gt
  | none, none => .eq

/-- One element of the `jobs_with_metadata` vector: record path (name), the
parsed job, and its best-effort episode metadata. -/
structure QueueEntry where
  path : String
  job : Job
  meta : Option EpisodeMetadata
  deriving DecidableEq, Repr

/-- The sort comparator applied to entries. -/
def cmpEntry (a b : QueueEntry) : Ordering :=
  cmpOptMeta a.meta b.meta

/-- Stable insertion of an entry: it goes before the first strictly greater
element, after everything less-or-equal seen so far. -/
def insertSorted (e : QueueEntry) : List QueueEntry → List QueueEntry
  | [] => [e]
  | x :: xs => if cmpEntry x e = .gt then e :: x :: xs else x :: insertSorted e xs

/-- `Vec::sort_by` is a stable sort; its output is the unique stable sorted
permutation, realized here by stable insertion sort over the same
comparator. -/
def sort_by_priority (l : List QueueEntry) : List QueueEntry :=
  l.foldl (fun acc e => insertSorted e acc) []

/-- The collection phase of claim_prioritized_job (queue/mod.rs lines
100-127): keep `.job` listing entries, read and deserialize each record,
silently skipping unreadable or unparseable ones, and attach the episode
metadata extracted from the job (the regex-based extractor is passed in as
a function). -/
def collectEntries (s : QueueState) (extract : Job → Option EpisodeMetadata) :
    List String → List QueueEntry
  | [] => []
  | name :: rest =>
    if hasJobExtension name then
      match s.pending name with
      | some content =>
        match deserialize_job content with
        | some job =>
            { path := name, job := job, meta := extract job } :: collectEntries s extract rest
        | none => collectEntries s extract rest
      | none => collectEntries s extract rest
    else collectEntries s extract rest

/-- The claim phase of claim_prioritized_job (queue/mod.rs lines 149-156):
attempt the atomic claim on each sorted entry until one succeeds; the third
component records the record names attempted, in order. -/
def walkClaims (s : QueueState) : List QueueEntry → ClaimResult × QueueState × List String
  | [] => (.empty, s, [])
  | e :: rest =>
    match try_claim_job_file s e.path with
    | (.claimed c, s2) => (.claimedJob c, s2, [e.path])
    | (.notAvailable, s2) =>
        let r := walkClaims s2 rest
        (r.1, r.2.1, e.path :: r.2.2)
    | (.deserializeError, s2) => (.claimError, s2, [e.path])

/-- JobQueue::claim_prioritized_job (queue/mod.rs lines 99-157): collect,
sort with the stable comparator, then claim in sorted order. -/
def claim_prioritized_job (s : QueueState) (extract : Job → Option EpisodeMetadata)
    (listing : List String) : ClaimResult × QueueState × List String :=
  walkClaims s (sort_by_priority (collectEntries s extract listing))

/-- Job prioritization mode (lib.rs, enum JobPriority). -/
inductive JobPriority where
  | noPriority : JobPriority
  | episode : JobPriority
  deriving DecidableEq, Repr

/-- JobQueue::claim_job (queue/mod.rs lines 70-78): dispatch on the
prioritization mode. -/
def claim_job (priority : Option JobPriority) (extract : Job → Option EpisodeMetadata)
    (listing : List String) (s : QueueState) : ClaimResult × QueueState :=
  match priority with
  | some .episode =>
    let r := claim_prioritized_job s extract listing
    (r.1, r.2.1)
  | _ => claim_first_available_job s listing

/-- The lexicographic job order the spec describes for the priority claim:
`(series_name, season_number, episode_number)` ascending, series names
compared lexically. -/
def metaLE (a b : EpisodeMetadata) : Prop :=
  a.series_name < b.series_name ∨
    (a.series_name = b.series_name ∧
      (a.season_number < b.season_number ∨
        (a.season_number = b.season_number ∧ a.episode_number ≤ b.episode_number)))

/-- Sort key giving the comparator's order inside a standard linear order:
entries without metadata map above all entries with metadata. -/
def metaKey : Option EpisodeMetadata → Lex (Bool × Lex (String × Lex (Nat × Nat)))
  | some m => toLex (false, toLex (m.series_name, toLex (m.season_number, m.episode_number)))
  | none => toLex (true, toLex ("", toLex (0, 0)))

/-- Files outside the queue record maps (scratch outputs in the work folder
and final outputs under the media root), by full path.  In the running
system the work folder is the queue's `_in_progress` directory
(commands/work.rs line 148); scratch names (`{id}_{file}.mp4`) and record
names (`{id}.job`) never collide, so the two maps are kept separate. -/
structure MediaFS where
  files : String → Option String

/-- Result of FFmpegProcessor::move_to_destination. -/
inductive MoveResult where
  | ok : MoveResult
  | errMissingWorkFile : MoveResult
  deriving DecidableEq, Repr

/-- FFmpegProcessor::move_to_destination (ffmpeg/mod.rs lines 287-317):
error if the work-folder output is missing, otherwise rename it onto the
final output path.  `tokio::fs::rename` (std::fs::rename) replaces an
existing destination file silently, so no destination check happens. -/
def move_to_destination (j : Job) (media_root : Option String) (work_folder : String)
    (fs : MediaFS) : MoveResult × MediaFS :=
  let work_output_path := j.work_folder_output_path work_folder
  let final_output_path := j.full_output_path media_root
  match fs.files work_output_path with
  | none => (.errMissingWorkFile, fs)
  | some content =>
    (.ok, ⟨fun p => if p = final_output_path then some content
                    else if p = work_output_path then none
                    else fs.files p⟩)

/-- FFmpegProcessor::get_duration (ffmpeg/mod.rs lines 352-379): error when
the file does not exist, otherwise the ffprobe subprocess outcome, which is
supplied as a function; `none` covers both a failing probe and unparseable
probe output, and durations (f64) are modelled as rationals. -/
def get_duration (probe : String → Option Rat) (fs : MediaFS) (path : String) : Option Rat :=
  match fs.files path with
  | none => none
  | some _ => probe path

/-- FFmpegProcessor::detect_partial_progress (ffmpeg/mod.rs lines 382-413):
probe the work-folder scratch path for this job; a positive duration sets
the resume progress, anything else (zero or negative duration, probe
failure) deletes the scratch file and reports no partial progress. -/
def detect_partial_progress (probe : String → Option Rat) (j : Job) (prog : JobProgress)
    (work_folder : String) (fs : MediaFS) : Bool × JobProgress × MediaFS :=
  let partial_path := j.work_folder_output_path work_folder
  match fs.files partial_path with
  | none => (false, prog, fs)
  | some _ =>
    match get_duration probe fs partial_path with
    | some duration =>
      if 0 < duration then
        (true,
         { started := true, partial_output_path := some partial_path,
           partial_duration_seconds := some duration }, fs)
      else
        (false, prog, ⟨fun p => if p = partial_path then none else fs.files p⟩)
    | none => (false, prog, ⟨fun p => if p = partial_path then none else fs.files p⟩)

/-- Replace the extension of a path (Path::with_extension), used for the
continuation segment name: strip the final component's extension if it has
one, then append the new one. -/
def withExtension (p ext : String) : String :=
  let rev := p.data.reverse
  if (rev.takeWhile (fun c => c != '/')).any (fun c => c == '.') then
    String.mk ((rev.dropWhile (fun c => c != '.')).tail).reverse ++ "." ++ ext
  else p ++ "." ++ ext

/-- One externally visible executor step: the ffprobe duration probe, a full
transcode, a continuation transcode seeked to the resume offset, or the
stream-copy concatenation pass. -/
inductive ExecAction where
  | probeDuration : String → ExecAction
  | ffmpegFull : String → String → ExecAction
  | ffmpegContinuation : Rat → String → String → ExecAction
  | concatCopy : String → String → String → ExecAction
  deriving DecidableEq, Repr

/-- Whether an executor step is the duration probe. -/
def isProbeAction : ExecAction → Bool
  | .probeDuration _ => true
  | _ => false

/-- Mode of one job attempt. -/
inductive ExecMode where
  | freshRun : ExecMode
  | resuming : Rat → ExecMode
  deriving DecidableEq, Repr

/-- FFmpegProcessor::process_job (ffmpeg/mod.rs lines 26-64): the output
goes to the work-folder scratch path when a work folder is given; the
attempt resumes exactly when the job's in-memory progress names a partial
file that exists and carries a duration — no probe of the work folder
happens here.  The result is the mode and the executor action trace. -/
def process_job (j : Job) (prog : JobProgress) (media_root : Option String)
    (work_folder : Option String) (fs : MediaFS) : ExecMode × List ExecAction :=
  let input_path := j.full_input_path media_root
  let output_path := match work_folder with
    | some w => j.work_folder_output_path w
    | none => j.full_output_path media_root
  let partial_file_exists := match prog.partial_output_path with
    | some p => (fs.files p).isSome
    | none => false
  match prog.partial_duration_seconds, partial_file_exists with
  | some resume_time, true =>
    let continuation_path := withExtension output_path "continuation.mp4"
    (.resuming resume_time,
      [.ffmpegContinuation resume_time input_path continuation_path,
       .concatCopy (prog.partial_output_path.getD "") continuation_path output_path])
  | _, _ => (.freshRun, [.ffmpegFull input_path output_path])

/-- Outcome of one WorkCommand::process_next_job call. -/
inductive JobOutcome where
  | processedCompleted : String → JobOutcome
  | processedReturnedMoveFailed : String → JobOutcome
  | processedReturnedExecFailed : String → JobOutcome
  | noJobAvailable : JobOutcome
  | claimFailed : JobOutcome
  deriving DecidableEq, Repr

/-- WorkCommand::process_next_job (commands/work.rs lines 123-204): claim,
run the executor on the claimed job — passing the job exactly as read from
the record, so with its initial progress, and never calling
detect_partial_progress — then on success move the output to its
destination and complete, and on any failure return the record to pending.
`execOk` is the encoder subprocess outcome and `outContent` the produced
output; on success the transcode leaves the output at the work-folder
scratch path. -/
def process_next_job (execOk : Bool) (outContent : String)
    (extract : Job → Option EpisodeMetadata) (priority : Option JobPriority)
    (media_root : Option String) (work_folder : String)
    (s : QueueState) (fs : MediaFS) (listing : List String) :
    JobOutcome × QueueState × MediaFS × List ExecAction :=
  match claim_job priority extract listing s with
  | (.claimedJob c, s2) =>
    let job := c.job
    let mr := if isAbsolutePath job.input_path then none else media_root
    let trace := (process_job job JobProgress.initial mr (some work_folder) fs).2
    if execOk then
      let work_path := job.work_folder_output_path work_folder
      let fs2 : MediaFS := ⟨fun p => if p = work_path then some outContent else fs.files p⟩
      match move_to_destination job mr work_folder fs2 with
      | (.ok, fs3) => (.processedCompleted c.job_name, c.complete s2, fs3, trace)
      | (.errMissingWorkFile, fs3) =>
          (.processedReturnedMoveFailed c.job_name, c.return_to_queue s2, fs3, trace)
    else
      (.processedReturnedExecFailed c.job_name, c.return_to_queue s2, fs, trace)
  | (.empty, s2) => (.noJobAvailable, s2, fs, [])
  | (.claimError, s2) => (.claimFailed, s2, fs, [])

/-- When, relative to the select loop of WorkCommand::execute, the shutdown
signal becomes ready: before the iteration's select poll, while the
in-flight process_next_job future is parked at the encoder await (after the
claim rename), or not during this iteration. -/
inductive ShutdownAt where
  | beforeIteration : ShutdownAt
  | duringExecution : ShutdownAt
  | notDuringIteration : ShutdownAt
  deriving DecidableEq, Repr

/-- Result of one iteration of the worker loop under a shutdown schedule. -/
inductive IterResult where
  | exitedNoJobHeld : IterResult
  | exitedAbandoning : String → IterResult
  | finished : JobOutcome → IterResult
  deriving DecidableEq, Repr

/-- One iteration of the worker loop of WorkCommand::execute (commands/
work.rs lines 68-116) under `tokio::select!`: a ready shutdown signal wins
the select and the in-flight `process_next_job` future is dropped at its
current await point — a ClaimedJob held there is neither completed nor
returned (the handle has no Drop logic), the record stays in
`_in_progress`. -/
def worker_iteration (sd : ShutdownAt) (execOk : Bool) (outContent : String)
    (extract : Job → Option EpisodeMetadata) (priority : Option JobPriority)
    (media_root : Option String) (work_folder : String)
    (s : QueueState) (fs : MediaFS) (listing : List String) :
    IterResult × QueueState × MediaFS :=
  match sd with
  | .beforeIteration => (.exitedNoJobHeld, s, fs)
  | .duringExecution =>
    match claim_job priority extract listing s with
    | (.claimedJob c, s2) => (.exitedAbandoning c.job_name, s2, fs)
    | (.empty, s2) => (.exitedNoJobHeld, s2, fs)
    | (.claimError, s2) => (.exitedNoJobHeld, s2, fs)
  | .notDuringIteration =>
    let r := process_next_job execOk outContent extract priority media_root work_folder s fs listing
    (.finished r.1, r.2.1, r.2.2.1)

/-- Helper building a concrete Mkv job with default settings. -/
def mkJob (i ip op : String) : Job :=
  { id := i, input_path := ip, output_path := op, subtitle_path := none,
    file_type := .Mkv,
    quality_settings :=
      { ffmpeg_preset := "veryfast", ffmpeg_crf := "23", ffmpeg_audio_bitrate := "128k" },
    post_processing := { disable_source_files := true } }

/-- Concrete job for the claim-contention scenario. -/
def jobC1 : Job := mkJob "c1" "/media/a.mkv" "/media/a.mp4"

/-- Queue with the single record of jobC1 pending. -/
def stateC1 : QueueState := (enqueue_job jobC1 emptyQueue).1

/-- Concrete job for the directory-invariant scenario. -/
def jobC2 : Job := mkJob "c2" "/media/b.mkv" "/media/b.mp4"

/-- Queue with the single record of jobC2 pending. -/
def stateC2 : QueueState := (enqueue_job jobC2 emptyQueue).1

/-- Concrete job for the finalization-conflict scenario. -/
def jobC3 : Job := mkJob "c3" "/media/show.mkv" "/media/show.mp4"

/-- Filesystem where the work folder holds this job's finished output and
the destination path already holds a file from an unrelated run. -/
def fsC3 : MediaFS :=
  ⟨fun p =>
    if p = "/work/c3_show.mp4" then some "our freshly transcoded output"
    else if p = "/media/show.mp4" then some "output of an unrelated run"
    else none⟩

/-- Concrete job for the shutdown scenario. -/
def jobC4 : Job := mkJob "c4" "/media/d.mkv" "/media/d.mp4"

/-- Queue with the single record of jobC4 pending. -/
def stateC4 : QueueState := (enqueue_job jobC4 emptyQueue).1

/-- Concrete job for the resume-probe scenario. -/
def jobC5 : Job := mkJob "c5" "/media/ep5.mkv" "/media/ep5.mp4"

/-- Queue with the single record of jobC5 pending. -/
def stateC5 : QueueState := (enqueue_job jobC5 emptyQueue).1

/-- Filesystem where the work folder (the queue's `_in_progress` directory)
already holds a partial output for jobC5. -/
def fsC5 : MediaFS :=
  ⟨fun p =>
    if p = "/q/_in_progress/c5_ep5.mp4" then some "partial output of an interrupted run"
    else if p = "/media/ep5.mkv" then some "source" else none⟩

/-- Probe outcome for the resume scenario: the partial file has 900 seconds
of finished video. -/
def probeC5 : String → Option Rat := fun _ => some 900

/-- Concrete job for the invalid-partial scenario. -/
def jobC9 : Job := mkJob "c9" "/media/ep9.mkv" "/media/ep9.mp4"

/-- Filesystem where the work folder holds an unusable partial file for
jobC9. -/
def fsC9 : MediaFS :=
  ⟨fun p => if p = "/work/c9_ep9.mp4" then some "zero-length partial" else none⟩

/-- Probe outcome for the invalid-partial scenario: duration zero. -/
def probeC9 : String → Option Rat := fun _ => some 0

/-- Queue holding one pending record whose payload is not a valid job
serialization. -/
def stateC10 : QueueState :=
  { pending := fun n => if n = "bad.job" then some "this is not a job record" else none,
    in_progress := fun _ => none, completed := fun _ => none, locks := fun _ => false }

/-- Concrete job for the idempotent-enqueue scenario. -/
def jobC7 : Job := mkJob "c7" "/media/g.mkv" "/media/g.mp4"

/-- Episode metadata of the spec's priority scenario. -/
def metaShowB2 : EpisodeMetadata :=
  { series_name := "ShowB", season_number := 1, episode_number := 2, content_type := .Series }

/-- Episode metadata of the spec's priority scenario. -/
def metaShowB1 : EpisodeMetadata :=
  { series_name := "ShowB", season_number := 1, episode_number := 1, content_type := .Series }

/-- Episode metadata of the spec's priority scenario. -/
def metaShowA1 : EpisodeMetadata :=
  { series_name := "ShowA", season_number := 1, episode_number := 1, content_type := .Series }

/-- Pending entry `ShowB S01E02` of the spec's priority scenario. -/
def entryB2 : QueueEntry :=
  { path := "b2.job", job := mkJob "b2" "Series/ShowB/Season 01/ShowB S01E02.mkv"
      "Series/ShowB/Season 01/ShowB S01E02.mp4", meta := some metaShowB2 }

/-- Pending entry `ShowB S01E01` of the spec's priority scenario. -/
def entryB1 : QueueEntry :=
  { path := "b1.job", job := mkJob "b1" "Series/ShowB/Season 01/ShowB S01E01.mkv"
      "Series/ShowB/Season 01/ShowB S01E01.mp4", meta := some metaShowB1 }

/-- Pending entry `ShowA S01E01` of the spec's priority scenario. -/
def entryA1 : QueueEntry :=
  { path := "a1.job", job := mkJob "a1" "Series/ShowA/Season 01/ShowA S01E01.mkv"
      "Series/ShowA/Season 01/ShowA S01E01.mp4", meta := some metaShowA1 }

/-- Pending entry `Movie X` (no metadata) of the spec's priority scenario. -/
def entryMovie : QueueEntry :=
  { path := "mx.job", job := mkJob "mx" "Movies/Movie X/Movie X.mkv"
      "Movies/Movie X/Movie X.mp4", meta := none }

/-- The spec's priority scenario snapshot, in enqueue order. -/
def scenarioEntries : List QueueEntry :=
  [entryB2, entryB1, entryA1, entryMovie]

/-- Skipping whitespace ignores a leading whitespace character. -/
theorem skipWs_cons_ws (c : Char) (cs : List Char) (h : isWs c = true) :
    skipWs (c :: cs) = skipWs cs := by
  simp [skipWs, h]

/-- Skipping whitespace stops at a non-whitespace character. -/
theorem skipWs_cons_not_ws (c : Char) (cs : List Char) (h : isWs c = false) :
    skipWs (c :: cs) = c :: cs := by
  simp [skipWs, h]

/-- Skipping whitespace swallows a run of spaces. -/
theorem skipWs_replicate_space (n : Nat) (t : List Char) :
    skipWs (List.replicate n ' ' ++ t) = skipWs t := by
  induction n with
  | zero => simp
  | succ n ih => simpa [List.replicate_succ, skipWs] using ih

/-- Skipping whitespace swallows the pretty-printer indentation. -/
theorem skipWs_indentChars (d : Nat) (t : List Char) :
    skipWs (indentChars d ++ t) = skipWs t :=
  skipWs_replicate_space _ t

/-- Skipping whitespace is idempotent. -/
theorem skipWs_idem (cs : List Char) : skipWs (skipWs cs) = skipWs cs := by
  induction cs with
  | nil => rfl
  | cons c cs ih =>
    by_cases h : isWs c = true
    · rw [skipWs_cons_ws c cs h]; exact ih
    · rw [skipWs_cons_not_ws c cs (by simpa using h), skipWs_cons_not_ws c cs (by simpa using h)]

/-- The value parser only looks at the whitespace-skipped input. -/
theorem parseVal_skipWs (f : Nat) (cs : List Char) :
    parseVal f cs = parseVal f (skipWs cs) := by
  cases f with
  | zero => rfl
  | succ f => simp only [parseVal, skipWs_idem]

/-- The entry parser only looks at the whitespace-skipped input. -/
theorem parseEntries_skipWs (f : Nat) (cs : List Char) :
    parseEntries f cs = parseEntries f (skipWs cs) := by
  cases f with
  | zero => rfl
  | succ f => simp only [parseEntries, skipWs_idem]

/-- Decoding inverts the hexadecimal digit encoding. -/
theorem hexVal_hexDigit : ∀ n : Nat, n < 16 → hexVal (hexDigit n) = some n := by
  decide

/-- The backslash is not the quote character. -/
@[simp] theorem bslash_ne_dquote : bslash ≠ dquote := by decide

/-- The quote is not the backslash character. -/
@[simp] theorem dquote_ne_bslash : dquote ≠ bslash := by decide

/-- Named escape letters are distinct from the quote. -/
@[simp] theorem escLetters_ne_dquote :
    ('b' ≠ dquote) ∧ ('t' ≠ dquote) ∧ ('n' ≠ dquote) ∧ ('f' ≠ dquote) ∧
    ('r' ≠ dquote) ∧ ('u' ≠ dquote) ∧ ('/' ≠ dquote) := by decide

/-- Named escape letters are distinct from the backslash. -/
@[simp] theorem escLetters_ne_bslash :
    ('b' ≠ bslash) ∧ ('t' ≠ bslash) ∧ ('n' ≠ bslash) ∧ ('f' ≠ bslash) ∧
    ('r' ≠ bslash) ∧ ('u' ≠ bslash) ∧ ('/' ≠ bslash) := by decide

/-- Named escape letters are distinct from the slash. -/
@[simp] theorem escLetters_ne_slash :
    ('b' ≠ '/') ∧ ('t' ≠ '/') ∧ ('n' ≠ '/') ∧ ('f' ≠ '/') ∧ ('r' ≠ '/') ∧
    ('u' ≠ '/') := by decide

/-- The named escape letters are pairwise distinct. -/
@[simp] theorem escLetters_pairwise :
    ('t' ≠ 'b') ∧ ('n' ≠ 'b') ∧ ('n' ≠ 't') ∧ ('f' ≠ 'b') ∧ ('f' ≠ 't') ∧
    ('f' ≠ 'n') ∧ ('r' ≠ 'b') ∧ ('r' ≠ 't') ∧ ('r' ≠ 'n') ∧ ('r' ≠ 'f') ∧
    ('u' ≠ 'b') ∧ ('u' ≠ 't') ∧ ('u' ≠ 'n') ∧ ('u' ≠ 'f') ∧ ('u' ≠ 'r') := by decide

/-- Hexadecimal value of the zero digit. -/
@[simp] theorem hexVal_zero : hexVal '0' = some 0 := by decide

/-- The token-opening characters of the value grammar are not whitespace. -/
@[simp] theorem tokenHeads_not_ws :
    (isWs dquote = false) ∧ (isWs 't' = false) ∧ (isWs 'f' = false) ∧
    (isWs 'n' = false) ∧ (isWs lbrace = false) ∧ (isWs rbrace = false) ∧
    (isWs ':' = false) ∧ (isWs ',' = false) := by decide

/-- The separators are distinct where the entry parser's if-chain needs it. -/
@[simp] theorem separators_pairwise :
    (rbrace ≠ ',') ∧ (',' ≠ rbrace) ∧ (rbrace ≠ ':') := by decide

/-- Space and newline are whitespace. -/
@[simp] theorem spaceNewline_ws : (isWs ' ' = true) ∧ (isWs '\n' = true) := by decide

/-- The value-head characters are pairwise distinct where the parser's
if-chain needs it. -/
@[simp] theorem valueHeads_pairwise :
    ('t' ≠ dquote) ∧ ('f' ≠ 't') ∧ ('n' ≠ 't') ∧ ('n' ≠ 'f') ∧
    (lbrace ≠ dquote) ∧ (lbrace ≠ 't') ∧ (lbrace ≠ 'f') ∧ (lbrace ≠ 'n') ∧
    (rbrace ≠ dquote) ∧ (rbrace ≠ lbrace) ∧ (lbrace ≠ rbrace) := by decide

/-- The string-body parser inverts the serializer's escaping, consuming the
closing quote. -/
theorem parseStringBody_escapeStr (s rest : List Char) :
    parseStringBody (escapeStr s ++ dquote :: rest) = some (s, rest) := by
  induction s with
  | nil => rw [parseStringBody.eq_def]; simp [escapeStr]
  | cons c cs ih =>
    show parseStringBody ((escapeChar c ++ escapeStr cs) ++ dquote :: rest) = _
    rw [List.append_assoc]
    unfold escapeChar
    by_cases h1 : c = dquote
    · subst h1; rw [parseStringBody.eq_def]; simp [ih]
    by_cases h2 : c = bslash
    · subst h2; rw [parseStringBody.eq_def]; simp [ih, h1]
    by_cases h3 : c = Char.ofNat 8
    · subst h3; rw [parseStringBody.eq_def]; simp [ih, h1, h2]
    by_cases h4 : c = Char.ofNat 9
    · subst h4; rw [parseStringBody.eq_def]; simp [ih, h1, h2, h3]
    by_cases h5 : c = Char.ofNat 10
    · subst h5; rw [parseStringBody.eq_def]; simp [ih, h1, h2, h3, h4]
    by_cases h6 : c = Char.ofNat 12
    · subst h6; rw [parseStringBody.eq_def]; simp [ih, h1, h2, h3, h4, h5]
    by_cases h7 : c = Char.ofNat 13
    · subst h7; rw [parseStringBody.eq_def]; simp [ih, h1, h2, h3, h4, h5, h6]
    by_cases h8 : c.toNat < 32
    · rw [if_neg h1, if_neg h2, if_neg h3, if_neg h4, if_neg h5, if_neg h6, if_neg h7,
        if_pos h8]
      have hhi : hexVal (hexDigit (c.toNat / 16)) = some (c.toNat / 16) :=
        hexVal_hexDigit _ (by omega)
      have hlo : hexVal (hexDigit (c.toNat % 16)) = some (c.toNat % 16) :=
        hexVal_hexDigit _ (by omega)
      have key : Char.ofNat (16 * (c.toNat / 16) + c.toNat % 16) = c := by
        have harith : 16 * (c.toNat / 16) + c.toNat % 16 = c.toNat := by omega
        rw [harith, Char.ofNat_toNat]
      rw [parseStringBody.eq_def]
      simp [hhi, hlo, key, ih]
    · rw [if_neg h1, if_neg h2, if_neg h3, if_neg h4, if_neg h5, if_neg h6, if_neg h7,
        if_neg h8]
      show parseStringBody (c :: (escapeStr cs ++ dquote :: rest)) = _
      rw [parseStringBody.eq_def]
      simp [h1, h2, ih]

/-- Rebuilding a string from its character data is the identity. -/
theorem stringMk_data (s : String) : String.mk s.data = s := rfl

/-- The value parser ignores one leading whitespace character. -/
theorem parseVal_cons_ws (c : Char) (h : isWs c = true) (f : Nat) (cs : List Char) :
    parseVal f (c :: cs) = parseVal f cs := by
  rw [parseVal_skipWs, skipWs_cons_ws c cs h, ← parseVal_skipWs]

/-- The entry parser ignores one leading whitespace character. -/
theorem parseEntries_cons_ws (c : Char) (h : isWs c = true) (f : Nat) (cs : List Char) :
    parseEntries f (c :: cs) = parseEntries f cs := by
  rw [parseEntries_skipWs, skipWs_cons_ws c cs h, ← parseEntries_skipWs]

/-- The entry parser ignores leading indentation. -/
theorem parseEntries_indent (f : Nat) (d : Nat) (cs : List Char) :
    parseEntries f (indentChars d ++ cs) = parseEntries f cs := by
  rw [parseEntries_skipWs, skipWs_indentChars, ← parseEntries_skipWs]

/-- The entry parser rejects empty input. -/
theorem parseEntries_nil (f : Nat) : parseEntries f [] = none := by
  cases f <;> rfl

/-- The entry parser rejects input whose first significant character closes
the object. -/
theorem parseEntries_rbrace (f : Nat) (r : List Char) :
    parseEntries f (rbrace :: r) = none := by
  cases f with
  | zero => rfl
  | succ f =>
    rw [parseEntries.eq_def]
    simp [skipWs_cons_not_ws _ _ tokenHeads_not_ws.2.2.2.2.2.1]

mutual
/-- The value parser inverts the pretty printer, for any depth, any trailing
input and enough fuel. -/
theorem parseVal_renderVal (v : JVal) :
    ∀ fuel d rest, jfuel v ≤ fuel →
      parseVal fuel (renderVal d v ++ rest) = some (v, rest) := by
  match v with
  | .str s =>
    intro fuel d rest hfuel
    match fuel, hfuel with
    | fuel + 1, _ =>
      rw [parseVal.eq_def]
      simp only [renderVal, renderString, List.cons_append, List.append_assoc,
        List.nil_append]
      rw [skipWs_cons_not_ws _ _ tokenHeads_not_ws.1]
      simp [parseStringBody_escapeStr, stringMk_data]
  | .jbool b =>
    intro fuel d rest hfuel
    match fuel, hfuel with
    | fuel + 1, _ =>
      rw [parseVal.eq_def]
      cases b <;>
        simp only [renderVal, List.cons_append, List.nil_append, if_true, if_false,
          Bool.false_eq_true, ite_false, ite_true] <;>
        · first
          | (rw [skipWs_cons_not_ws _ _ tokenHeads_not_ws.2.1]; simp)
          | (rw [skipWs_cons_not_ws _ _ tokenHeads_not_ws.2.2.1]; simp)
  | .jnull =>
    intro fuel d rest hfuel
    match fuel, hfuel with
    | fuel + 1, _ =>
      rw [parseVal.eq_def]
      simp only [renderVal, List.cons_append, List.nil_append]
      rw [skipWs_cons_not_ws _ _ tokenHeads_not_ws.2.2.2.1]
      simp
  | .obj .nil =>
    intro fuel d rest hfuel
    match fuel, hfuel with
    | fuel + 1, _ =>
      rw [parseVal.eq_def]
      simp only [renderVal, List.cons_append, List.nil_append]
      rw [skipWs_cons_not_ws _ _ tokenHeads_not_ws.2.2.2.2.1]
      simp only []
      rw [skipWs_cons_not_ws _ _ tokenHeads_not_ws.2.2.2.2.2.1]
      simp
  | .obj (.cons k v es) =>
    intro fuel d rest hfuel
    have hpos : 1 ≤ fuel := by
      simp only [jfuel, jfuelEntries] at hfuel; omega
    match fuel, hpos with
    | f + 1, _ =>
      have hE : jfuelEntries (JEntries.cons k v es) ≤ f := by
        simp only [jfuel] at hfuel; omega
      have hrec := parseEntries_renderEntries (JEntries.cons k v es) f d
        rest (by intro h; exact JEntries.noConfusion h) hE
      rw [parseVal.eq_def]
      simp only [renderVal, List.cons_append, List.append_assoc, List.nil_append]
      rw [skipWs_cons_not_ws _ _ tokenHeads_not_ws.2.2.2.2.1]
      simp only [valueHeads_pairwise.2.2.2.2.1, valueHeads_pairwise.2.2.2.2.2.1,
        valueHeads_pairwise.2.2.2.2.2.2.1, valueHeads_pairwise.2.2.2.2.2.2.2.1,
        ite_true, ite_false, if_neg, if_pos]
      set T := renderEntries d (JEntries.cons k v es) ++ '\n' :: (indentChars d ++ rbrace :: rest) with hT
      rw [skipWs_cons_ws _ _ spaceNewline_ws.2]
      rw [parseEntries_skipWs] at hrec
      rcases hskip : skipWs T with _ | ⟨c2, r2⟩
      · rw [hskip, parseEntries_nil] at hrec; exact absurd hrec (by simp)
      · rw [hskip] at hrec
        have hc2 : c2 ≠ rbrace := by
          intro h
          subst h
          rw [parseEntries_rbrace] at hrec
          exact absurd hrec (by simp)
        simp [hc2, hrec]
/-- The entry parser inverts the pretty printer on a nonempty entry run
followed by the closing newline, indentation and brace. -/
theorem parseEntries_renderEntries (es : JEntries) :
    ∀ fuel d rest, es ≠ .nil → jfuelEntries es ≤ fuel →
      parseEntries fuel (renderEntries d es ++ '\n' :: (indentChars d ++ rbrace :: rest))
        = some (es, rest) := by
  match es with
  | .nil => intro fuel d rest hne; exact absurd rfl hne
  | .cons k v tail =>
    intro fuel d rest _ hfuel
    have hpos : 1 ≤ fuel := by
      simp only [jfuelEntries] at hfuel; omega
    match fuel, hpos with
    | f + 1, _ =>
      have hv : jfuel v ≤ f := by simp only [jfuelEntries] at hfuel; omega
      match tail with
      | .nil =>
        rw [parseEntries.eq_def]
        simp only [renderEntries, renderString, List.cons_append, List.append_assoc,
          List.nil_append]
        rw [skipWs_indentChars, skipWs_cons_not_ws _ _ tokenHeads_not_ws.1]
        simp only [ite_true, if_pos]
        rw [parseStringBody_escapeStr]
        simp only []
        rw [skipWs_cons_not_ws _ _ tokenHeads_not_ws.2.2.2.2.2.2.1]
        simp only [ite_true, if_pos]
        have hpv : parseVal f (' ' :: (renderVal (d + 1) v ++
            '\n' :: (indentChars d ++ rbrace :: rest))) =
            some (v, '\n' :: (indentChars d ++ rbrace :: rest)) := by
          rw [parseVal_cons_ws _ spaceNewline_ws.1]
          exact parseVal_renderVal v f (d + 1) _ hv
        rw [hpv]
        simp only []
        rw [skipWs_cons_ws _ _ spaceNewline_ws.2, skipWs_indentChars,
          skipWs_cons_not_ws _ _ tokenHeads_not_ws.2.2.2.2.2.1]
        simp [stringMk_data, separators_pairwise.1]
      | .cons k2 v2 tail2 =>
        have hE2 : jfuelEntries (JEntries.cons k2 v2 tail2) ≤ f := by
          simp only [jfuelEntries] at hfuel ⊢; omega
        have hrec := parseEntries_renderEntries (JEntries.cons k2 v2 tail2) f d rest
          (by intro h; exact JEntries.noConfusion h) hE2
        rw [parseEntries.eq_def]
        simp only [renderEntries, renderString, List.cons_append, List.append_assoc,
          List.nil_append]
        rw [skipWs_indentChars, skipWs_cons_not_ws _ _ tokenHeads_not_ws.1]
        simp only [ite_true, if_pos]
        rw [parseStringBody_escapeStr]
        simp only []
        rw [skipWs_cons_not_ws _ _ tokenHeads_not_ws.2.2.2.2.2.2.1]
        simp only [ite_true, if_pos]
        have hpv : parseVal f (' ' :: (renderVal (d + 1) v ++
            ',' :: '\n' :: (renderEntries d (JEntries.cons k2 v2 tail2) ++
              '\n' :: (indentChars d ++ rbrace :: rest)))) =
            some (v, ',' :: '\n' :: (renderEntries d (JEntries.cons k2 v2 tail2) ++
              '\n' :: (indentChars d ++ rbrace :: rest))) := by
          rw [parseVal_cons_ws _ spaceNewline_ws.1]
          exact parseVal_renderVal v f (d + 1) _ hv
        rw [hpv]
        simp only []
        rw [skipWs_cons_not_ws _ _ tokenHeads_not_ws.2.2.2.2.2.2.2]
        simp only [ite_true, if_pos]
        rw [parseEntries_cons_ws _ spaceNewline_ws.2, hrec]
        simp [stringMk_data]
end

mutual
/-- Parsing fuel needed for a value is bounded by its rendered length. -/
theorem jfuel_le_renderVal (v : JVal) : ∀ d, jfuel v ≤ (renderVal d v).length + 1 := by
  match v with
  | .str s => intro d; simp [jfuel, renderVal]
  | .jbool b => intro d; cases b <;> simp [jfuel, renderVal]
  | .jnull => intro d; simp [jfuel, renderVal]
  | .obj .nil => intro d; simp [jfuel, jfuelEntries, renderVal]
  | .obj (.cons k v es) =>
    intro d
    have h := jfuelEntries_le_renderEntries (JEntries.cons k v es) d
    simp only [jfuel, renderVal, List.length_cons, List.length_append]
    omega
/-- Parsing fuel needed for an entry run is bounded by its rendered length. -/
theorem jfuelEntries_le_renderEntries (es : JEntries) :
    ∀ d, jfuelEntries es ≤ (renderEntries d es).length := by
  match es with
  | .nil => intro d; simp [jfuelEntries, renderEntries]
  | .cons k v .nil =>
    intro d
    have h := jfuel_le_renderVal v (d + 1)
    simp only [jfuelEntries, renderEntries, renderString, List.length_append,
      List.length_cons, List.length_nil]
    omega
  | .cons k v (.cons k2 v2 es2) =>
    intro d
    have h := jfuel_le_renderVal v (d + 1)
    have h2 := jfuelEntries_le_renderEntries (JEntries.cons k2 v2 es2) d
    simp only [jfuelEntries] at h2
    simp only [jfuelEntries, renderEntries, renderString, List.length_append,
      List.length_cons, List.length_nil]
    omega
end

/-- Reading the job fields back from the serialized JSON value recovers the
job exactly. -/
theorem jobFromJson_jobToJson (j : Job) : jobFromJson (jobToJson j) = some j := by
  obtain ⟨i, ip, op, sp, ft, q, pp⟩ := j
  cases sp <;> cases ft <;> rfl

/-- The claim C8 theorem below rests on this parse-level inversion: parsing
the rendered record recovers the serialized JSON value and consumes the
whole input. -/
theorem parse_serialize_job (j : Job) :
    parseVal ((serialize_job j).length + 1) (serialize_job j).data
      = some (jobToJson j, []) := by
  have hparse := parseVal_renderVal (jobToJson j)
    ((renderVal 0 (jobToJson j)).length + 1) 0 []
    (le_trans (jfuel_le_renderVal _ 0) (by omega))
  rw [List.append_nil] at hparse
  exact hparse

/-- Deserializing a serialized job recovers it exactly (shared helper). -/
theorem deserialize_serialize (j : Job) : deserialize_job (serialize_job j) = some j := by
  unfold deserialize_job
  rw [parse_serialize_job j]
  simp [skipWs, jobFromJson_jobToJson]

/-- Claim C8: serializing a Job, deserializing the result and serializing
again is lossless — deserialization reconstructs a Job with identical
fields, and the re-serialized output is byte-identical to the first
serialization. -/
theorem C8_record_roundtrip (j : Job) :
    deserialize_job (serialize_job j) = some j ∧
    (deserialize_job (serialize_job j)).map serialize_job = some (serialize_job j) :=
  ⟨deserialize_serialize j, by rw [deserialize_serialize j]; rfl⟩

/-- Once the record is gone from pending, every further rename-based claim
attempt fails without effect. -/
theorem claim_attempts_absent (s : QueueState) (name : String)
    (h : s.pending name = none) :
    ∀ n, claim_attempts s name n = (List.replicate n ClaimOutcome.notAvailable, s) := by
  intro n
  induction n with
  | zero => rfl
  | succ n ih => simp [claim_attempts, try_claim_job_file, h, ih, List.replicate_succ]

/-- Claim C1: when n workers race the rename-based claim of one pending
record, the serialization of their atomic renames gives the handle to the
first and `not available` to the other n-1; the number of successful claims
is exactly one, never two. -/
theorem C1_at_most_one_claimant (s : QueueState) (name content : String) (job : Job)
    (n : Nat) (hpend : s.pending name = some content)
    (hde : deserialize_job content = some job) (hn : 1 ≤ n) :
    (claim_attempts s name n).1 =
      ClaimOutcome.claimed { job_name := name, job := job } ::
        List.replicate (n - 1) ClaimOutcome.notAvailable ∧
    ((claim_attempts s name n).1.filter isClaimedOutcome).length = 1 := by
  match n, hn with
  | m + 1, _ =>
    have hstep :
        (claim_attempts s name (m + 1)).1 =
          ClaimOutcome.claimed { job_name := name, job := job } ::
            List.replicate m ClaimOutcome.notAvailable := by
      simp only [claim_attempts, try_claim_job_file, hpend, hde]
      rw [claim_attempts_absent _ name (by simp) m]
    refine ⟨by simpa using hstep, ?_⟩
    rw [hstep]
    simp [isClaimedOutcome, List.filter_replicate]

/-- Witness for C1 on a concrete queue: three workers race for the one
pending record of jobC1. -/
theorem C1_witness :
    (claim_attempts stateC1 "c1.job" 3).1 =
      ClaimOutcome.claimed { job_name := "c1.job", job := jobC1 } ::
        List.replicate 2 ClaimOutcome.notAvailable ∧
    ((claim_attempts stateC1 "c1.job" 3).1.filter isClaimedOutcome).length = 1 :=
  C1_at_most_one_claimant stateC1 "c1.job" (serialize_job jobC1) jobC1 3
    (by rfl) (deserialize_serialize jobC1) (by decide)

/-- Characterization of an enqueue when no other writer holds the lock: the
record is written into pending, and the lock directory is created and then
removed again, leaving the locks as before. -/
theorem enqueue_job_unlocked (j : Job) (s : QueueState)
    (hlock : s.locks (j.job_filename ++ ".lock") = false) :
    enqueue_job j s =
      ({ pending := fun n => if n = j.job_filename then some (serialize_job j) else s.pending n,
         in_progress := s.in_progress, completed := s.completed, locks := s.locks }, true) := by
  simp only [enqueue_job]
  rw [if_neg (by simp [hlock])]
  simp only [Prod.mk.injEq, and_true]
  ext n
  · rfl
  · rfl
  · rfl
  · by_cases hn : n = j.job_filename ++ ".lock" <;> simp [hn, hlock]

/-- Claim C7: enqueueing the same job twice leaves exactly the one record
(the same queue state as after one enqueue), and both calls return Ok. -/
theorem C7_idempotent_enqueue (j : Job) (s : QueueState)
    (hlock : s.locks (j.job_filename ++ ".lock") = false) :
    (enqueue_job j s).2 = true ∧
    (enqueue_job j (enqueue_job j s).1).2 = true ∧
    (enqueue_job j (enqueue_job j s).1).1.pending j.job_filename = some (serialize_job j) ∧
    (enqueue_job j (enqueue_job j s).1).1 = (enqueue_job j s).1 := by
  have h1 := enqueue_job_unlocked j s hlock
  have h2 := enqueue_job_unlocked j (enqueue_job j s).1 (by rw [h1]; exact hlock)
  refine ⟨by rw [h1], by rw [h2], by rw [h2]; simp, ?_⟩
  rw [h2, h1]
  ext n
  · by_cases hn : n = j.job_filename <;> simp [hn]
  · rfl
  · rfl
  · rfl

/-- Witness for C7: double enqueue of a concrete job into the fresh queue. -/
theorem C7_witness :
    (enqueue_job jobC7 emptyQueue).2 = true ∧
    (enqueue_job jobC7 (enqueue_job jobC7 emptyQueue).1).2 = true ∧
    (enqueue_job jobC7 (enqueue_job jobC7 emptyQueue).1).1.pending jobC7.job_filename
      = some (serialize_job jobC7) ∧
    (enqueue_job jobC7 (enqueue_job jobC7 emptyQueue).1).1 = (enqueue_job jobC7 emptyQueue).1 :=
  C7_idempotent_enqueue jobC7 emptyQueue (by rfl)

/-- A record sitting in `in_progress` with nothing pending under its name
stays there under any operations that do not settle it through a handle and
do not re-enqueue its id. -/
theorem in_progress_stranded (name content : String) :
    ∀ (ops : List QOp) (s : QueueState),
      s.in_progress name = some content → s.pending name = none →
      (∀ op ∈ ops, op ≠ QOp.complete name ∧ op ≠ QOp.returnToQueue name ∧
        (∀ jb : Job, op = QOp.enqueue jb → jb.job_filename ≠ name)) →
      (applyOps ops s).in_progress name = some content := by
  intro ops
  induction ops with
  | nil => intro s hin _ _; exact hin
  | cons op ops ih =>
    intro s hin hpend hops
    have hop := hops op (by simp)
    have hrest : ∀ o ∈ ops, o ≠ QOp.complete name ∧ o ≠ QOp.returnToQueue name ∧
        (∀ jb : Job, o = QOp.enqueue jb → jb.job_filename ≠ name) :=
      fun o ho => hops o (by simp [ho])
    have hstep : (applyOp op s).in_progress name = some content ∧
        (applyOp op s).pending name = none := by
      cases op with
      | enqueue jb =>
        have hne : ¬ name = jb.job_filename := fun h => hop.2.2 jb rfl h.symm
        simp only [applyOp, enqueue_job]
        by_cases hl : s.locks (jb.job_filename ++ ".lock") <;>
          simp [hl, hin, hpend, hne]
      | tryClaim n2 =>
        simp only [applyOp, try_claim_job_file]
        cases hp2 : s.pending n2 with
        | none => exact ⟨hin, hpend⟩
        | some c2 =>
          have hn2 : ¬ name = n2 := by
            intro h
            rw [← h, hpend] at hp2
            exact Option.noConfusion hp2
          cases hde : deserialize_job c2 <;> simp [hde, hin, hpend, hn2]
      | complete n2 =>
        have hne : ¬ name = n2 := by
          intro h
          exact hop.1 (by rw [h])
        simp only [applyOp, settleRecord]
        cases hp2 : s.in_progress n2 <;> simp [hin, hpend, hne]
      | returnToQueue n2 =>
        have hne : ¬ name = n2 := by
          intro h
          exact hop.2.1 (by rw [h])
        simp only [applyOp, settleRecord]
        cases hp2 : s.in_progress n2 <;> simp [hin, hpend, hne]
    exact ih (applyOp op s) hstep.1 hstep.2 hrest

/-- Claim C10: an unprioritized claim over a pending record whose payload
does not deserialize renames the record into `in_progress` and then returns
an error instead of a handle; the record is stranded there — no later
operation short of settling it through a (nonexistent) handle or
re-enqueueing its id ever moves it. -/
theorem C10_corrupt_record_stranded (s : QueueState) (name content : String)
    (hext : hasJobExtension name = true)
    (hpend : s.pending name = some content)
    (hbad : deserialize_job content = none) :
    (claim_first_available_job s [name]).1 = ClaimResult.claimError ∧
    (claim_first_available_job s [name]).2.in_progress name = some content ∧
    (claim_first_available_job s [name]).2.pending name = none ∧
    ∀ ops : List QOp,
      (∀ op ∈ ops, op ≠ QOp.complete name ∧ op ≠ QOp.returnToQueue name ∧
        (∀ jb : Job, op = QOp.enqueue jb → jb.job_filename ≠ name)) →
      (applyOps ops (claim_first_available_job s [name]).2).in_progress name = some content := by
  have hclaim : claim_first_available_job s [name] =
      (ClaimResult.claimError,
        { pending := fun n => if n = name then none else s.pending n,
          in_progress := fun n => if n = name then some content else s.in_progress n,
          completed := s.completed, locks := s.locks }) := by
    simp [claim_first_available_job, try_claim_job_file, hext, hpend, hbad]
  refine ⟨by rw [hclaim], by rw [hclaim]; simp, by rw [hclaim]; simp, ?_⟩
  intro ops hops
  exact in_progress_stranded name content ops _ (by rw [hclaim]; simp)
    (by rw [hclaim]; simp) hops

/-- Witness for C10: a concrete pending record holding garbage. -/
theorem C10_witness :
    (claim_first_available_job stateC10 ["bad.job"]).1 = ClaimResult.claimError ∧
    (claim_first_available_job stateC10 ["bad.job"]).2.in_progress "bad.job"
      = some "this is not a job record" ∧
    (claim_first_available_job stateC10 ["bad.job"]).2.pending "bad.job" = none ∧
    ∀ ops : List QOp,
      (∀ op ∈ ops, op ≠ QOp.complete "bad.job" ∧ op ≠ QOp.returnToQueue "bad.job" ∧
        (∀ jb : Job, op = QOp.enqueue jb → jb.job_filename ≠ "bad.job")) →
      (applyOps ops (claim_first_available_job stateC10 ["bad.job"]).2).in_progress "bad.job"
        = some "this is not a job record" :=
  C10_corrupt_record_stranded stateC10 "bad.job" "this is not a job record"
    (by decide) (by rfl) (by decide)

/-- A claim attempt on an absent record fails without effect. -/
theorem try_claim_absent (s : QueueState) (name : String)
    (h : s.pending name = none) :
    try_claim_job_file s name = (ClaimOutcome.notAvailable, s) := by
  unfold try_claim_job_file
  rw [h]

/-- A claim attempt on a present record renames it from pending to
in_progress, whatever the deserialization outcome. -/
theorem try_claim_state (s : QueueState) (name content : String)
    (h : s.pending name = some content) :
    (try_claim_job_file s name).2 =
      { pending := fun n => if n = name then none else s.pending n,
        in_progress := fun n => if n = name then some content else s.in_progress n,
        completed := s.completed, locks := s.locks } := by
  cases hde : deserialize_job content <;> simp [try_claim_job_file, h, hde]

/-- Settling an absent record is a failed rename without effect. -/
theorem settleRecord_absent (name : String) (s : QueueState) (b : Bool)
    (h : s.in_progress name = none) : settleRecord name s b = s := by
  unfold settleRecord
  rw [h]

/-- Completing a present record renames it from in_progress to completed. -/
theorem settleRecord_complete (name : String) (s : QueueState) (content : String)
    (h : s.in_progress name = some content) :
    settleRecord name s true =
      { s with in_progress := fun n => if n = name then none else s.in_progress n,
               completed := fun n => if n = name then some content else s.completed n } := by
  unfold settleRecord
  rw [h]
  rfl

/-- Returning a present record renames it from in_progress back to pending. -/
theorem settleRecord_return (name : String) (s : QueueState) (content : String)
    (h : s.in_progress name = some content) :
    settleRecord name s false =
      { s with in_progress := fun n => if n = name then none else s.in_progress n,
               pending := fun n => if n = name then some content else s.pending n } := by
  unfold settleRecord
  rw [h]
  rfl

/-- One operation whose enqueue guard holds preserves the
exactly-one-directory invariant for the record. -/
theorem dirCount_preserved (name : String) (op : QOp) (s : QueueState)
    (h1 : exactlyOneDir s name) (hsafe : enqueueSafeB name s op = true) :
    exactlyOneDir (applyOp op s) name := by
  unfold exactlyOneDir dirCount at h1 ⊢
  cases op with
  | enqueue jb =>
    simp only [applyOp, enqueue_job]
    by_cases hl : s.locks (jb.job_filename ++ ".lock") = true
    · simpa [hl] using h1
    · rw [if_neg hl]
      by_cases hn : name = jb.job_filename
      · subst hn
        simp only [enqueueSafeB, beq_self_eq_true, Bool.not_true, Bool.false_or,
          Bool.and_eq_true, Option.isNone_iff_eq_none] at hsafe
        simp [hsafe.1, hsafe.2]
      · simpa [hn] using h1
  | tryClaim n2 =>
    simp only [applyOp]
    cases hp2 : s.pending n2 with
    | none => simp only [try_claim_absent s n2 hp2]; exact h1
    | some c2 =>
      simp only [try_claim_state s n2 c2 hp2]
      by_cases hn : name = n2
      · subst hn
        rcases hip : s.in_progress name with _ | c3 <;>
          rcases hcc : s.completed name with _ | c4 <;>
          simp [hp2, hip, hcc] at h1 <;>
          simp [hp2, hip, hcc]
      · simpa [hn] using h1
  | complete n2 =>
    simp only [applyOp]
    cases hip2 : s.in_progress n2 with
    | none => simp only [settleRecord_absent n2 s true hip2]; exact h1
    | some c2 =>
      simp only [settleRecord_complete n2 s c2 hip2]
      by_cases hn : name = n2
      · subst hn
        rcases hp : s.pending name with _ | c3 <;>
          rcases hcc : s.completed name with _ | c4 <;>
          simp [hp, hip2, hcc] at h1 <;>
          simp [hp, hip2, hcc]
      · simpa [hn] using h1
  | returnToQueue n2 =>
    simp only [applyOp]
    cases hip2 : s.in_progress n2 with
    | none => simp only [settleRecord_absent n2 s false hip2]; exact h1
    | some c2 =>
      simp only [settleRecord_return n2 s c2 hip2]
      by_cases hn : name = n2
      · subst hn
        rcases hp : s.pending name with _ | c3 <;>
          rcases hcc : s.completed name with _ | c4 <;>
          simp [hp, hip2, hcc] at h1 <;>
          simp [hp, hip2, hcc]
      · simpa [hn] using h1

/-- The exactly-one-directory invariant holds at every instant along a
guarded operation sequence. -/
theorem exactlyOne_along (name : String) :
    ∀ (ops : List QOp) (s : QueueState),
      exactlyOneDir s name → SafeSeqB name s ops = true →
      ∀ t ∈ statesAlong ops s, exactlyOneDir t name := by
  intro ops
  induction ops with
  | nil =>
    intro s h1 _ t ht
    simp [statesAlong] at ht
    subst ht
    exact h1
  | cons op ops ih =>
    intro s h1 hsafe t ht
    have hsplit : enqueueSafeB name s op = true ∧ SafeSeqB name (applyOp op s) ops = true := by
      simpa [SafeSeqB, Bool.and_eq_true] using hsafe
    simp only [statesAlong, List.mem_cons] at ht
    rcases ht with rfl | ht
    · exact h1
    · exact ih (applyOp op s) (dirCount_preserved name op s h1 hsplit.1) hsplit.2 t ht

/-- Claim C2 (amended): along any operation sequence in which the record's
id is only enqueued while the record is absent from `in_progress` and
`completed`, the record is in exactly one of the three directories at every
instant; in particular a failed execution (claim followed by
return-to-pending) leaves it in exactly one directory.  (The unguarded
claim is refuted by C2_counterexample: enqueueing an id whose record
currently sits in `in_progress` puts it in two directories.) -/
theorem C2_exactly_one_directory (name : String) (s : QueueState) (ops : List QOp)
    (h1 : exactlyOneDir s name) (hsafe : SafeSeqB name s ops = true) :
    (∀ t ∈ statesAlong ops s, exactlyOneDir t name) ∧
    exactlyOneDir (applyOps [QOp.tryClaim name, QOp.returnToQueue name] s) name := by
  refine ⟨exactlyOne_along name ops s h1 hsafe, ?_⟩
  have p1 := dirCount_preserved name (QOp.tryClaim name) s h1 rfl
  have p2 := dirCount_preserved name (QOp.returnToQueue name) _ p1 rfl
  exact p2

set_option maxRecDepth 8000 in
/-- Counterexample to C2 as stated: starting from the empty queue root,
enqueue a job, claim it (record moves to `in_progress`), then enqueue the
same job again — the record now exists in two directories at once, because
enqueue only guards against a concurrent writer's lock, not against the
record being in flight. -/
theorem C2_counterexample :
    dirCount (applyOps [QOp.enqueue jobC2, QOp.tryClaim "c2.job", QOp.enqueue jobC2]
      emptyQueue) "c2.job" = 2 := by
  decide

/-- Witness for the amended C2 on a concrete queue: claim then
return-to-pending on the single record. -/
theorem C2_witness :
    (∀ t ∈ statesAlong [QOp.tryClaim "c2.job", QOp.returnToQueue "c2.job"] stateC2,
      exactlyOneDir t "c2.job") ∧
    exactlyOneDir
      (applyOps [QOp.tryClaim "c2.job", QOp.returnToQueue "c2.job"] stateC2) "c2.job" :=
  C2_exactly_one_directory "c2.job" stateC2
    [QOp.tryClaim "c2.job", QOp.returnToQueue "c2.job"] (by decide) (by rfl)

/-- The comparator of a linear order never reports equal for unequal
arguments, and is `gt` exactly on reversed strict order. -/
theorem cmpLin_eq_gt {α : Type} [LinearOrder α] (a b : α) :
    cmpLin a b = Ordering.gt ↔ b < a := by
  unfold cmpLin
  rcases lt_trichotomy a b with h | h | h
  · simp [h, lt_asymm h]
  · subst h; simp
  · rw [if_neg (lt_asymm h), if_neg (ne_of_gt h)]
    simp [h]

/-- The comparator of a linear order is reflexive into `eq`. -/
theorem cmpLin_self {α : Type} [LinearOrder α] (a : α) : cmpLin a a = Ordering.eq := by
  simp [cmpLin]

/-- Comparing lexicographic pairs with equal first components compares the
second components. -/
theorem cmpLin_toLex_eq {α β : Type} [LinearOrder α] [LinearOrder β] (x : α) (p q : β) :
    cmpLin (toLex (x, p)) (toLex (x, q)) = cmpLin p q := by
  unfold cmpLin
  rcases lt_trichotomy p q with h | h | h
  · have hlt : toLex (x, p) < toLex (x, q) := by
      rw [Prod.Lex.lt_iff]
      exact Or.inr ⟨rfl, h⟩
    rw [if_pos hlt, if_pos h]
  · subst h; simp
  · have h1 : ¬ toLex (x, p) < toLex (x, q) := by
      rw [Prod.Lex.lt_iff]
      simp [lt_asymm h, ne_of_gt h]
    have h2 : ¬ toLex (x, p) = toLex (x, q) := by
      simp [ne_of_gt h]
    rw [if_neg h1, if_neg h2, if_neg (lt_asymm h), if_neg (ne_of_gt h)]

/-- Comparing lexicographic pairs whose first components strictly increase
yields `lt`. -/
theorem cmpLin_toLex_left {α β : Type} [LinearOrder α] [LinearOrder β]
    {x y : α} (h : x < y) (p q : β) :
    cmpLin (toLex (x, p)) (toLex (y, q)) = Ordering.lt := by
  unfold cmpLin
  have hlt : toLex (x, p) < toLex (y, q) := by
    rw [Prod.Lex.lt_iff]
    exact Or.inl h
  rw [if_pos hlt]

/-- Comparing lexicographic pairs whose first components strictly decrease
yields `gt`. -/
theorem cmpLin_toLex_right {α β : Type} [LinearOrder α] [LinearOrder β]
    {x y : α} (h : y < x) (p q : β) :
    cmpLin (toLex (x, p)) (toLex (y, q)) = Ordering.gt := by
  unfold cmpLin
  have h1 : ¬ toLex (x, p) < toLex (y, q) := by
    rw [Prod.Lex.lt_iff]
    simp [lt_asymm h, ne_of_gt h]
  have h2 : ¬ toLex (x, p) = toLex (y, q) := by
    simp [ne_of_gt h]
  rw [if_neg h1, if_neg h2]

/-- The code's then-chained episode comparator equals the comparator of the
lexicographic key `(series_name, season_number, episode_number)`. -/
theorem cmpMeta_eq_key (a b : EpisodeMetadata) :
    cmpMeta a b =
      cmpLin (toLex (a.series_name, toLex (a.season_number, a.episode_number)))
        (toLex (b.series_name, toLex (b.season_number, b.episode_number))) := by
  unfold cmpMeta
  rcases lt_trichotomy a.series_name b.series_name with h | h | h
  · rw [cmpLin_toLex_left h, show cmpLin a.series_name b.series_name = Ordering.lt from if_pos h]
    rfl
  · rw [h, cmpLin_toLex_eq, cmpLin_self]
    rcases lt_trichotomy a.season_number b.season_number with h2 | h2 | h2
    · rw [cmpLin_toLex_left h2, show cmpLin a.season_number b.season_number = Ordering.lt from if_pos h2]
      rfl
    · rw [h2, cmpLin_toLex_eq, cmpLin_self]
      rfl
    · rw [cmpLin_toLex_right h2]
      rw [show cmpLin a.season_number b.season_number = Ordering.gt from
        (cmpLin_eq_gt _ _).mpr h2]
      rfl
  · rw [cmpLin_toLex_right h]
    rw [show cmpLin a.series_name b.series_name = Ordering.gt from (cmpLin_eq_gt _ _).mpr h]
    rfl

/-- The full entry comparator equals the comparator of the sort keys. -/
theorem cmpEntry_eq_key (a b : QueueEntry) :
    cmpEntry a b = cmpLin (metaKey a.meta) (metaKey b.meta) := by
  cases hma : a.meta with
  | none =>
    cases hmb : b.meta with
    | none => simp [cmpEntry, cmpOptMeta, metaKey, hma, hmb, cmpLin_self]
    | some mb =>
      simp [cmpEntry, cmpOptMeta, metaKey, hma, hmb,
        cmpLin_toLex_right (show (false : Bool) < true by decide)]
  | some ma =>
    cases hmb : b.meta with
    | none =>
      simp [cmpEntry, cmpOptMeta, metaKey, hma, hmb,
        cmpLin_toLex_left (show (false : Bool) < true by decide)]
    | some mb =>
      simp [cmpEntry, cmpOptMeta, metaKey, hma, hmb, cmpLin_toLex_eq, cmpMeta_eq_key]

/-- An entry does not compare greater than another exactly when its key is
less or equal. -/
theorem cmpEntry_ne_gt_iff (a b : QueueEntry) :
    cmpEntry a b ≠ Ordering.gt ↔ metaKey a.meta ≤ metaKey b.meta := by
  rw [cmpEntry_eq_key, ← not_lt]
  exact not_congr (cmpLin_eq_gt _ _)

/-- Membership in a stable insertion. -/
theorem mem_insertSorted (e x : QueueEntry) (l : List QueueEntry) :
    x ∈ insertSorted e l ↔ x = e ∨ x ∈ l := by
  induction l with
  | nil => simp [insertSorted]
  | cons y ys ih =>
    unfold insertSorted
    by_cases h : cmpEntry y e = Ordering.gt
    · rw [if_pos h]
      simp only [List.mem_cons]
    · rw [if_neg h]
      simp only [List.mem_cons, ih]
      tauto

/-- Stable insertion preserves sortedness with respect to the comparator. -/
theorem pairwise_insertSorted (e : QueueEntry) (l : List QueueEntry)
    (h : l.Pairwise (fun a b => cmpEntry a b ≠ Ordering.gt)) :
    (insertSorted e l).Pairwise (fun a b => cmpEntry a b ≠ Ordering.gt) := by
  induction l with
  | nil => simp [insertSorted]
  | cons x xs ih =>
    rw [List.pairwise_cons] at h
    unfold insertSorted
    by_cases hx : cmpEntry x e = Ordering.gt
    · rw [if_pos hx]
      have hex : metaKey e.meta < metaKey x.meta := by
        rw [cmpEntry_eq_key, cmpLin_eq_gt] at hx
        exact hx
      refine List.Pairwise.cons ?_ (List.Pairwise.cons h.1 h.2)
      intro y hy
      rw [cmpEntry_ne_gt_iff]
      rcases List.mem_cons.mp hy with rfl | hy2
      · exact le_of_lt hex
      · exact le_of_lt (lt_of_lt_of_le hex ((cmpEntry_ne_gt_iff _ _).mp (h.1 y hy2)))
    · rw [if_neg hx]
      refine List.Pairwise.cons ?_ (ih h.2)
      intro y hy
      rcases (mem_insertSorted e y xs).mp hy with rfl | hy2
      · exact hx
      · exact h.1 y hy2

/-- The stable sort used for the priority claim is sorted with respect to
the comparator. -/
theorem pairwise_sort_by_priority (l : List QueueEntry) :
    (sort_by_priority l).Pairwise (fun a b => cmpEntry a b ≠ Ordering.gt) := by
  have aux : ∀ (l2 : List QueueEntry) (acc : List QueueEntry),
      acc.Pairwise (fun a b => cmpEntry a b ≠ Ordering.gt) →
      (l2.foldl (fun acc e => insertSorted e acc) acc).Pairwise
        (fun a b => cmpEntry a b ≠ Ordering.gt) := by
    intro l2
    induction l2 with
    | nil => intro acc h; exact h
    | cons e rest ih =>
      intro acc h
      exact ih (insertSorted e acc) (pairwise_insertSorted e acc h)
  exact aux l [] (by simp)

/-- Inserting an entry without metadata appends it at the end: nothing
compares greater than a missing key. -/
theorem insertSorted_none (e : QueueEntry) (he : e.meta = none) (l : List QueueEntry) :
    insertSorted e l = l ++ [e] := by
  induction l with
  | nil => rfl
  | cons x xs ih =>
    unfold insertSorted
    have hne : cmpEntry x e ≠ Ordering.gt := by
      unfold cmpEntry cmpOptMeta
      rw [he]
      cases x.meta <;> simp
    rw [if_neg hne, ih]
    rfl

/-- Inserting an entry with metadata does not disturb the subsequence of
entries without metadata. -/
theorem filter_insertSorted_some (e : QueueEntry) (he : e.meta.isNone = false)
    (l : List QueueEntry) :
    (insertSorted e l).filter (fun x => x.meta.isNone) =
      l.filter (fun x => x.meta.isNone) := by
  induction l with
  | nil => simp [insertSorted, List.filter, he]
  | cons x xs ih =>
    unfold insertSorted
    by_cases h : cmpEntry x e = Ordering.gt
    · rw [if_pos h]
      simp [List.filter_cons, he]
    · rw [if_neg h]
      simp [List.filter_cons, ih]

/-- The stable sort keeps the no-metadata entries in their original
relative order. -/
theorem filter_sort_none (l : List QueueEntry) :
    (sort_by_priority l).filter (fun x => x.meta.isNone) =
      l.filter (fun x => x.meta.isNone) := by
  have aux : ∀ (l2 acc : List QueueEntry),
      (l2.foldl (fun acc e => insertSorted e acc) acc).filter (fun x => x.meta.isNone) =
        acc.filter (fun x => x.meta.isNone) ++ l2.filter (fun x => x.meta.isNone) := by
    intro l2
    induction l2 with
    | nil => intro acc; simp
    | cons e rest ih =>
      intro acc
      rw [List.foldl_cons, ih (insertSorted e acc)]
      cases he : e.meta with
      | none =>
        rw [insertSorted_none e he acc]
        simp [List.filter_append, List.filter_cons, he]
      | some m =>
        rw [filter_insertSorted_some e (by simp [he]) acc]
        simp [List.filter_cons, he]
  have h := aux l []
  simpa [sort_by_priority] using h

/-- The walk of the sorted list attempts record names in exactly the sorted
order: the attempted names are always a prefix of the sorted names. -/
theorem walkClaims_attempts_take (l : List QueueEntry) :
    ∀ s : QueueState, ∃ k, (walkClaims s l).2.2 = (l.map QueueEntry.path).take k := by
  induction l with
  | nil => intro s; exact ⟨0, rfl⟩
  | cons e rest ih =>
    intro s
    rcases htc : try_claim_job_file s e.path with ⟨o, s2⟩
    cases o with
    | claimed c => exact ⟨1, by simp [walkClaims, htc]⟩
    | notAvailable =>
      obtain ⟨k, hk⟩ := ih s2
      exact ⟨k + 1, by simp [walkClaims, htc, hk]⟩
    | deserializeError => exact ⟨1, by simp [walkClaims, htc]⟩

/-- The nested lexicographic key order is exactly the spec's episode
order. -/
theorem keyM_le_iff_metaLE (a b : EpisodeMetadata) :
    toLex (a.series_name, toLex (a.season_number, a.episode_number)) ≤
      toLex (b.series_name, toLex (b.season_number, b.episode_number)) ↔ metaLE a b := by
  unfold metaLE
  rw [Prod.Lex.le_iff, Prod.Lex.le_iff]

/-- Claim C6: for every snapshot of pending jobs, the priority claim's sort
puts all jobs with episode metadata before all jobs without, orders the
metadata jobs ascending by `(series_name, season_number, episode_number)`
(series names compared lexically), keeps the relative listing order of jobs
without metadata, and the claim attempts are made in exactly this sorted
order (a prefix of it, stopping at the first success); moreover on the
spec's four-job scenario the sorted order is `ShowA S01E01`, `ShowB S01E01`,
`ShowB S01E02`, `Movie X`. -/
theorem C6_priority_order (s : QueueState) (extract : Job → Option EpisodeMetadata)
    (listing : List String) :
    ((sort_by_priority (collectEntries s extract listing)).Pairwise
      (fun a b => a.meta = none → b.meta = none)) ∧
    ((sort_by_priority (collectEntries s extract listing)).Pairwise
      (fun a b => ∀ ma mb, a.meta = some ma → b.meta = some mb → metaLE ma mb)) ∧
    ((sort_by_priority (collectEntries s extract listing)).filter (fun x => x.meta.isNone) =
      (collectEntries s extract listing).filter (fun x => x.meta.isNone)) ∧
    (∃ k, (claim_prioritized_job s extract listing).2.2 =
      ((sort_by_priority (collectEntries s extract listing)).map QueueEntry.path).take k) ∧
    sort_by_priority scenarioEntries = [entryA1, entryB1, entryB2, entryMovie] := by
  have hpw := pairwise_sort_by_priority (collectEntries s extract listing)
  refine ⟨?_, ?_, filter_sort_none _, ?_, ?_⟩
  · refine hpw.imp ?_
    intro a b hab ha
    cases hb : b.meta with
    | none => rfl
    | some mb =>
      rw [cmpEntry_ne_gt_iff, ha, hb] at hab
      simp only [metaKey] at hab
      rw [Prod.Lex.le_iff] at hab
      simp at hab
      exact absurd hab (by decide)
  · refine hpw.imp ?_
    intro a b hab ma mb ha hb
    rw [cmpEntry_ne_gt_iff, ha, hb] at hab
    simp only [metaKey] at hab
    rw [Prod.Lex.le_iff] at hab
    simp at hab
    exact (keyM_le_iff_metaLE ma mb).mp hab
  · exact walkClaims_attempts_take _ s
  · have hAB : ("ShowA" : String) < "ShowB" := by
      rw [String.lt_iff_toList_lt]
      decide
    have hgtBA : cmpLin ("ShowB" : String) "ShowA" = Ordering.gt :=
      (cmpLin_eq_gt _ _).mpr hAB
    have hgt21 : cmpLin (2 : Nat) 1 = Ordering.gt :=
      (cmpLin_eq_gt _ _).mpr (by decide)
    simp [sort_by_priority, scenarioEntries, entryB2, entryB1, entryA1, entryMovie,
      insertSorted, cmpEntry, cmpOptMeta, cmpMeta, metaShowB2, metaShowB1, metaShowA1,
      mkJob, cmpLin_self, hgtBA, hgt21, Ordering.then]

/-- Counterexample to C3 as stated: the destination file already exists
from an unrelated run, yet move_to_destination returns Ok — no failure is
reported — and the rename silently replaces the existing destination
content. -/
theorem C3_counterexample :
    fsC3.files (jobC3.full_output_path none) = some "output of an unrelated run" ∧
    (move_to_destination jobC3 none "/work" fsC3).1 = MoveResult.ok ∧
    (move_to_destination jobC3 none "/work" fsC3).2.files (jobC3.full_output_path none)
      = some "our freshly transcoded output" := by
  decide

/-- Claim C3 (amended): move_to_destination reports a failure exactly when
the work-folder output file is missing; when the work-folder output exists
it always returns Ok and renames it onto the destination path, silently
replacing any file already there (std::fs::rename semantics). -/
theorem C3_amended_move_semantics (j : Job) (media_root : Option String)
    (work_folder : String) (fs : MediaFS) :
    ((move_to_destination j media_root work_folder fs).1 = MoveResult.errMissingWorkFile ↔
      fs.files (j.work_folder_output_path work_folder) = none) ∧
    (∀ c, fs.files (j.work_folder_output_path work_folder) = some c →
      (move_to_destination j media_root work_folder fs).1 = MoveResult.ok ∧
      (move_to_destination j media_root work_folder fs).2.files
        (j.full_output_path media_root) = some c) := by
  cases hw : fs.files (j.work_folder_output_path work_folder) with
  | none =>
    constructor
    · simp [move_to_destination, hw]
    · intro c hc
      exact absurd hc (by simp)
  | some c0 =>
    constructor
    · simp [move_to_destination, hw]
    · intro c hc
      obtain rfl : c0 = c := by simpa using hc
      simp [move_to_destination, hw]

/-- Witness for the amended C3 on the concrete conflicting filesystem. -/
theorem C3_witness :
    (move_to_destination jobC3 none "/work" fsC3).1 = MoveResult.ok ∧
    (move_to_destination jobC3 none "/work" fsC3).2.files (jobC3.full_output_path none)
      = some "our freshly transcoded output" :=
  (C3_amended_move_semantics jobC3 none "/work" fsC3).2
    "our freshly transcoded output" (by decide)

/-- Claim C9: a partial file in the work folder whose duration probe fails
(or is unparseable — both are the error outcome of get_duration) or reports
a non-positive duration is deleted, no partial progress is reported, the
progress record is left untouched, and the subsequent executor run is a
fresh full transcode, never a resume. -/
theorem C9_invalid_partial_cleanup (probe : String → Option Rat) (j : Job)
    (work_folder : String) (fs : MediaFS) (c : String) (media_root : Option String)
    (hfile : fs.files (j.work_folder_output_path work_folder) = some c)
    (hbad : probe (j.work_folder_output_path work_folder) = none ∨
      ∃ d, probe (j.work_folder_output_path work_folder) = some d ∧ d ≤ 0) :
    (detect_partial_progress probe j JobProgress.initial work_folder fs).1 = false ∧
    (detect_partial_progress probe j JobProgress.initial work_folder fs).2.1
      = JobProgress.initial ∧
    (detect_partial_progress probe j JobProgress.initial work_folder fs).2.2.files
      (j.work_folder_output_path work_folder) = none ∧
    (process_job j (detect_partial_progress probe j JobProgress.initial work_folder fs).2.1
      media_root (some work_folder)
      (detect_partial_progress probe j JobProgress.initial work_folder fs).2.2).1
      = ExecMode.freshRun := by
  have hdet : detect_partial_progress probe j JobProgress.initial work_folder fs =
      (false, JobProgress.initial,
        ⟨fun p => if p = j.work_folder_output_path work_folder then none else fs.files p⟩) := by
    rcases hbad with hb | ⟨d, hd, hdle⟩
    · simp [detect_partial_progress, get_duration, hfile, hb]
    · have hdle2 : ¬ (0 : Rat) < d := not_lt.mpr hdle
      simp [detect_partial_progress, get_duration, hfile, hd, hdle2]
  rw [hdet]
  refine ⟨rfl, rfl, by simp, ?_⟩
  simp [process_job, JobProgress.initial]

/-- Witness for C9: a concrete zero-duration partial file is deleted and
the attempt is a fresh run. -/
theorem C9_witness :
    (detect_partial_progress probeC9 jobC9 JobProgress.initial "/work" fsC9).1 = false ∧
    (detect_partial_progress probeC9 jobC9 JobProgress.initial "/work" fsC9).2.1
      = JobProgress.initial ∧
    (detect_partial_progress probeC9 jobC9 JobProgress.initial "/work" fsC9).2.2.files
      (jobC9.work_folder_output_path "/work") = none ∧
    (process_job jobC9
      (detect_partial_progress probeC9 jobC9 JobProgress.initial "/work" fsC9).2.1
      none (some "/work")
      (detect_partial_progress probeC9 jobC9 JobProgress.initial "/work" fsC9).2.2).1
      = ExecMode.freshRun :=
  C9_invalid_partial_cleanup probeC9 jobC9 "/work" fsC9 "zero-length partial" none
    (by decide) (Or.inr ⟨0, rfl, le_refl 0⟩)

/-- A claim attempt that reports contention left the state unchanged. -/
theorem try_claim_notAvailable (s : QueueState) (name : String) (s3 : QueueState)
    (h : try_claim_job_file s name = (ClaimOutcome.notAvailable, s3)) : s3 = s := by
  cases hp : s.pending name with
  | none =>
    rw [try_claim_absent s name hp] at h
    simpa using h.symm
  | some content =>
    cases hde : deserialize_job content <;> simp [try_claim_job_file, hp, hde] at h

/-- A successful rename-based claim carries the record's name and leaves the
record in `in_progress` with the pending copy gone; `completed` is
untouched. -/
theorem try_claim_claimed (s : QueueState) (name : String) (c : ClaimedJob)
    (s3 : QueueState)
    (h : try_claim_job_file s name = (ClaimOutcome.claimed c, s3)) :
    c.job_name = name ∧ (s3.in_progress name).isSome = true ∧
    s3.pending name = none ∧ s3.completed = s.completed := by
  cases hp : s.pending name with
  | none =>
    rw [try_claim_absent s name hp] at h
    simp at h
  | some content =>
    cases hde : deserialize_job content with
    | none => simp [try_claim_job_file, hp, hde] at h
    | some job =>
      simp [try_claim_job_file, hp, hde, Prod.ext_iff] at h
      obtain ⟨hc, hs⟩ := h
      subst hs
      refine ⟨by rw [← hc], by simp, by simp, rfl⟩

/-- A successful unprioritized claim put the claimed record into
`in_progress`, removed it from pending, and did not touch `completed`. -/
theorem claim_first_claimed (c : ClaimedJob) (s2 : QueueState) :
    ∀ (listing : List String) (s : QueueState),
      claim_first_available_job s listing = (ClaimResult.claimedJob c, s2) →
      (s2.in_progress c.job_name).isSome = true ∧ s2.pending c.job_name = none ∧
      s2.completed = s.completed := by
  intro listing
  induction listing with
  | nil =>
    intro s h
    simp [claim_first_available_job] at h
  | cons name rest ih =>
    intro s h
    unfold claim_first_available_job at h
    by_cases hext : hasJobExtension name = true
    · rw [if_pos hext] at h
      rcases htc : try_claim_job_file s name with ⟨o, s3⟩
      rw [htc] at h
      cases o with
      | claimed c1 =>
        simp [Prod.ext_iff] at h
        obtain ⟨hc, hs⟩ := h
        obtain ⟨hname, h2, h3, h4⟩ := try_claim_claimed s name c1 s3 htc
        rw [hs] at h2 h3 h4
        rw [hc] at hname
        rw [hname]
        exact ⟨h2, h3, h4⟩
      | notAvailable =>
        have hs3 : s3 = s := try_claim_notAvailable s name s3 htc
        rw [hs3] at h
        exact ih s h
      | deserializeError => simp [Prod.ext_iff] at h
    · rw [if_neg hext] at h
      exact ih s h

/-- A successful prioritized walk put the claimed record into `in_progress`,
removed it from pending, and did not touch `completed`. -/
theorem walkClaims_claimed (c : ClaimedJob) (s2 : QueueState) :
    ∀ (l : List QueueEntry) (s : QueueState) (atts : List String),
      walkClaims s l = (ClaimResult.claimedJob c, s2, atts) →
      (s2.in_progress c.job_name).isSome = true ∧ s2.pending c.job_name = none ∧
      s2.completed = s.completed := by
  intro l
  induction l with
  | nil =>
    intro s atts h
    simp [walkClaims] at h
  | cons e rest ih =>
    intro s atts h
    unfold walkClaims at h
    rcases htc : try_claim_job_file s e.path with ⟨o, s3⟩
    rw [htc] at h
    cases o with
    | claimed c1 =>
      simp [Prod.ext_iff] at h
      obtain ⟨hc, hs, _⟩ := h
      obtain ⟨hname, h2, h3, h4⟩ := try_claim_claimed s e.path c1 s3 htc
      rw [hs] at h2 h3 h4
      rw [hc] at hname
      rw [hname]
      exact ⟨h2, h3, h4⟩
    | notAvailable =>
      have hs3 : s3 = s := try_claim_notAvailable s e.path s3 htc
      rw [hs3] at h
      have h2 : ((walkClaims s rest).1, (walkClaims s rest).2.1,
          e.path :: (walkClaims s rest).2.2) = (ClaimResult.claimedJob c, s2, atts) := h
      rcases hw : walkClaims s rest with ⟨r, s4, atts4⟩
      rw [hw] at h2
      simp [Prod.ext_iff] at h2
      obtain ⟨hr, hs4, _⟩ := h2
      rw [hr, hs4] at hw
      exact ih s atts4 hw
    | deserializeError => simp [Prod.ext_iff] at h

/-- A successful claim_job call, whatever the priority mode, put the claimed
record into `in_progress`, removed it from pending, and did not touch
`completed`. -/
theorem claim_job_claimed (priority : Option JobPriority)
    (extract : Job → Option EpisodeMetadata) (listing : List String)
    (s : QueueState) (c : ClaimedJob) (s2 : QueueState)
    (h : claim_job priority extract listing s = (ClaimResult.claimedJob c, s2)) :
    (s2.in_progress c.job_name).isSome = true ∧ s2.pending c.job_name = none ∧
    s2.completed = s.completed := by
  cases priority with
  | none => exact claim_first_claimed c s2 listing s h
  | some jp =>
    cases jp with
    | noPriority => exact claim_first_claimed c s2 listing s h
    | episode =>
      unfold claim_job at h
      rcases hw : claim_prioritized_job s extract listing with ⟨r, s4, atts⟩
      rw [hw] at h
      simp [Prod.ext_iff] at h
      obtain ⟨hr, hs4⟩ := h
      rw [hr, hs4] at hw
      exact walkClaims_claimed c s2 _ s atts hw

set_option maxRecDepth 8000 in
/-- Counterexample to C4 as stated: one pending job, the shutdown signal
becomes ready while the in-flight process_next_job future awaits the
encoder; select drops the future, the loop exits, and the claimed record is
left in `in_progress` — neither completed nor returned to pending. -/
theorem C4_counterexample :
    (worker_iteration ShutdownAt.duringExecution true "out" (fun _ => none) none
      (some "/media") "/q/_in_progress" stateC4 ⟨fun _ => none⟩ ["c4.job"]).1
      = IterResult.exitedAbandoning "c4.job" ∧
    ((worker_iteration ShutdownAt.duringExecution true "out" (fun _ => none) none
      (some "/media") "/q/_in_progress" stateC4 ⟨fun _ => none⟩ ["c4.job"]).2.1.in_progress
      "c4.job").isSome = true ∧
    (worker_iteration ShutdownAt.duringExecution true "out" (fun _ => none) none
      (some "/media") "/q/_in_progress" stateC4 ⟨fun _ => none⟩ ["c4.job"]).2.1.pending
      "c4.job" = none ∧
    (worker_iteration ShutdownAt.duringExecution true "out" (fun _ => none) none
      (some "/media") "/q/_in_progress" stateC4 ⟨fun _ => none⟩ ["c4.job"]).2.1.completed
      "c4.job" = none := by
  decide

/-- Claim C4 (amended): the shutdown signal stops new claims — if it is
ready before the iteration's select poll the loop exits with the queue
untouched and no job held; but if it arrives while a claimed job is still
executing, the select drops the in-flight future and the worker exits
leaving that record in `in_progress`, neither completed nor returned to
pending. -/
theorem C4_shutdown_behavior (execOk : Bool) (outContent : String)
    (extract : Job → Option EpisodeMetadata) (priority : Option JobPriority)
    (media_root : Option String) (work_folder : String)
    (s : QueueState) (fs : MediaFS) (listing : List String)
    (c : ClaimedJob) (s2 : QueueState)
    (hclaim : claim_job priority extract listing s = (ClaimResult.claimedJob c, s2)) :
    worker_iteration ShutdownAt.beforeIteration execOk outContent extract priority
      media_root work_folder s fs listing = (IterResult.exitedNoJobHeld, s, fs) ∧
    worker_iteration ShutdownAt.duringExecution execOk outContent extract priority
      media_root work_folder s fs listing
      = (IterResult.exitedAbandoning c.job_name, s2, fs) ∧
    (s2.in_progress c.job_name).isSome = true ∧
    s2.pending c.job_name = none ∧
    s2.completed c.job_name = s.completed c.job_name := by
  obtain ⟨h1, h2, h3⟩ := claim_job_claimed priority extract listing s c s2 hclaim
  refine ⟨rfl, ?_, h1, h2, by rw [h3]⟩
  simp [worker_iteration, hclaim]

set_option maxRecDepth 8000 in
/-- Witness for the amended C4 on the concrete one-job queue. -/
theorem C4_witness :
    worker_iteration ShutdownAt.beforeIteration true "out" (fun _ => none) none
      (some "/media") "/q/_in_progress" stateC4 ⟨fun _ => none⟩ ["c4.job"]
      = (IterResult.exitedNoJobHeld, stateC4, ⟨fun _ => none⟩) ∧
    worker_iteration ShutdownAt.duringExecution true "out" (fun _ => none) none
      (some "/media") "/q/_in_progress" stateC4 ⟨fun _ => none⟩ ["c4.job"]
      = (IterResult.exitedAbandoning
          (ClaimedJob.mk "c4.job" jobC4).job_name,
          (claim_job none (fun _ => none) ["c4.job"] stateC4).2, ⟨fun _ => none⟩) ∧
    (((claim_job none (fun _ => none) ["c4.job"] stateC4).2.in_progress
      (ClaimedJob.mk "c4.job" jobC4).job_name).isSome = true) ∧
    ((claim_job none (fun _ => none) ["c4.job"] stateC4).2.pending
      (ClaimedJob.mk "c4.job" jobC4).job_name = none) ∧
    ((claim_job none (fun _ => none) ["c4.job"] stateC4).2.completed
      (ClaimedJob.mk "c4.job" jobC4).job_name
      = stateC4.completed (ClaimedJob.mk "c4.job" jobC4).job_name) :=
  C4_shutdown_behavior true "out" (fun _ => none) none (some "/media") "/q/_in_progress"
    stateC4 ⟨fun _ => none⟩ ["c4.job"] (ClaimedJob.mk "c4.job" jobC4)
    (claim_job none (fun _ => none) ["c4.job"] stateC4).2
    (by
      rw [Prod.ext_iff]
      exact ⟨by decide, rfl⟩)

set_option maxRecDepth 8000 in
/-- Claim C5 (code bug): the resume probe is never run on the claim path.
On the concrete queue whose work folder already holds a resumable partial
output for the pending job (fsC5, 900 s of finished video according to the
probe), detect_partial_progress would report partial progress — but
process_next_job hands the executor the job with its freshly deserialized
initial progress and never calls detect_partial_progress, so the executor
trace is exactly one full transcode and contains no duration-probe action:
the attempt runs fresh, the work folder is never probed. -/
theorem C5_no_probe_on_claim_path :
    (detect_partial_progress probeC5 jobC5 JobProgress.initial "/q/_in_progress" fsC5).1
      = true ∧
    (process_next_job true "transcoded" (fun _ => none) none (some "/media")
      "/q/_in_progress" stateC5 fsC5 ["c5.job"]).2.2.2
      = [ExecAction.ffmpegFull "/media/ep5.mkv" "/q/_in_progress/c5_ep5.mp4"] ∧
    ((process_next_job true "transcoded" (fun _ => none) none (some "/media")
      "/q/_in_progress" stateC5 fsC5 ["c5.job"]).2.2.2.all
        (fun a => !(isProbeAction a))) = true ∧
    (process_next_job true "transcoded" (fun _ => none) none (some "/media")
      "/q/_in_progress" stateC5 fsC5 ["c5.job"]).1
      = JobOutcome.processedCompleted "c5.job" := by
  decide

end Plexify
